import Mathlib

/-!
# Verification of the parquet-lens analyzers

Shallow embedding of the three analyzer revisions in this repository
(`parquet_lens.py`, `parquet_lens_v2.py`, `parquet_lens_v3.py`) together
with proofs about the segment trees they emit.

Conventions:
* Python byte strings are `List Nat` (one entry per byte).
* Python `int` values that can be negative (file offsets, declared sizes
  decoded from the wire) are `Int`; positions inside a decode buffer,
  which only ever move forward from 0, are `Nat`.
* Fallible code returns `Except String` (a raised exception is
  `.error msg`); loops that the source runs without a bound are given
  explicit fuel, `none` standing for non-termination.
* The thrift wire decoder itself is the external `thrift` package, so
  decode results reached through it are supplied by oracle parameters;
  everything computed by the repository's own code is embedded directly.
-/

namespace ParquetLens

/-- The 4 magic bytes `b"PAR1"`. -/
def par1Bytes : List Nat := [80, 65, 82, 49]

/-- `file[i : i+len]`: the slice read by `f.seek(i); f.read(len)`. -/
def slice (file : List Nat) (i len : Nat) : List Nat :=
  (file.drop i).take len

/-- Unsigned little-endian 32-bit interpretation of (up to) 4 bytes, as in
`struct.unpack("<I", ...)` and `int.from_bytes(..., byteorder='little',
signed=False)`. -/
def le32 : List Nat → Nat
  | [] => 0
  | b :: rest => b % 256 + 256 * le32 rest

/-- Lowercase hex digit. -/
def hexChar (n : Nat) : Char :=
  if n < 10 then Char.ofNat (48 + n) else Char.ofNat (87 + n)

/-- `bytes.hex()`: lowercase hexadecimal rendering of a byte string. -/
def bytesHex : List Nat → String
  | [] => ""
  | b :: rest =>
    String.mk [hexChar ((b % 256) / 16), hexChar (b % 16)] ++ bytesHex rest

/-- Thrift wire-type tags (`TType`), reduced to the distinctions the
offset recorders actually branch on. -/
inductive TT where
  | tbool | ti32 | ti64 | tdouble | tstring | tstruct | tlist | tother
deriving DecidableEq, Repr

/-! ## v3: `parquet_lens_v3.py` data model

Thrift structures referenced by `parse_parquet_file`.  The generated
`parquet.ttypes` module is not part of `src/`; these record types are
modelled from the spec (§3 data model, §4.5 container navigator, and the
glossary rows for row group / column chunk / page): a page header carries
a declared compressed payload size and optional v1/v2 data-page headers
with a declared value count; a column chunk's metadata carries the value
count, first data-page offset and optional dictionary/bloom offsets. -/

/-- Modelled from the spec: the v1/v2 data-page header, which declares the
number of values in the page (`num_values`). -/
structure DataPageHeaderM where
  num_values : Int
deriving DecidableEq, Repr

/-- Modelled from the spec: a decoded `PageHeader`. -/
structure PageHeaderM where
  compressed_page_size : Int
  data_page_header : Option DataPageHeaderM
  data_page_header_v2 : Option DataPageHeaderM
deriving DecidableEq, Repr

/-- Modelled from the spec: a decoded `ColumnMetaData` (the fields
`parse_parquet_file` reads). -/
structure ColumnMetaDataM where
  num_values : Int
  data_page_offset : Int
  dictionary_page_offset : Option Int
  bloom_filter_offset : Option Int
deriving DecidableEq, Repr

/-- Modelled from the spec: a decoded `ColumnChunk`. -/
structure ColumnChunkM where
  meta_data : ColumnMetaDataM
  column_index_offset : Option Int
  offset_index_offset : Option Int
deriving DecidableEq, Repr

/-- Modelled from the spec: a decoded `RowGroup`. -/
structure RowGroupM where
  columns : List ColumnChunkM
deriving DecidableEq, Repr

/-- Modelled from the spec: a decoded `FileMetaData` (the footer). -/
structure FileMetaM where
  row_groups : List RowGroupM
deriving DecidableEq, Repr

/-- A v3 output segment, as built by `create_segment(range_start,
range_end, name, ...)`: `offset = range_start`,
`length = range_end - range_start`.  The optional `value`/`metadata`
payloads do not carry byte ranges and are omitted. -/
structure SegV3 where
  offset : Int
  length : Int
  name : String
deriving DecidableEq, Repr

/-- `create_segment` of `parquet_lens_v3.py` (range fields only). -/
def create_segment (range_start range_end : Int) (name : String) : SegV3 :=
  { offset := range_start, length := range_end - range_start, name := name }

/-- `fill_gaps` of `parquet_lens_v3.py`, inner loop: `offset` is the
running position, a synthetic `"unknown"` segment is inserted whenever the
next segment does not start exactly there, and a final `"unknown"` segment
pads to `file_size`. -/
def fillGapsGo (offset : Int) : List SegV3 → Int → List SegV3
  | [], file_size =>
    if offset ≠ file_size then [create_segment offset file_size "unknown"] else []
  | s :: rest, file_size =>
    (if s.offset ≠ offset then [create_segment offset s.offset "unknown"] else [])
      ++ s :: fillGapsGo (s.offset + s.length) rest file_size

/-- `fill_gaps(segments, file_size)` of `parquet_lens_v3.py`. -/
def fill_gaps (segments : List SegV3) (file_size : Int) : List SegV3 :=
  fillGapsGo 0 segments file_size

/-- The oracle signature for `read_thrift_segment(f, offset, name, Cls)`:
decoding is done by the external thrift package, so its result (the
decoded object plus the recorded offset-info segment) is a parameter,
indexed by the absolute file offset it is invoked at. -/
def PageOracle : Type := Int → Except String (PageHeaderM × SegV3)

/-- `f.seek(offset)` raises `OSError` for a negative offset; this guard is
shared by every `read_thrift_segment` call site. -/
def seekGuard (offset : Int) : Except String Unit :=
  if offset < 0 then .error "seek: invalid argument" else .ok ()

/-- `read_pages(f, column_chunk, segments)` of `parquet_lens_v3.py`.

The source runs an unbounded `while remaining_values > 0` loop; the
embedding takes explicit fuel and returns `none` when the loop has not
finished within it, so that non-termination is observable.  Each
iteration decodes one page header at `offset`, appends the header segment
and a `page_data` segment of the declared compressed size, and either
breaks (no recognized data-page header), or subtracts the declared value
count and advances past the compressed payload. -/
def read_pages (oracle : PageOracle) :
    Nat → Int → Int → List SegV3 → List Int →
    Option (Except String (List SegV3 × List Int))
  | 0, _, _, _, _ => none
  | fuel + 1, remaining_values, offset, segments, offsets =>
    if remaining_values > 0 then
      match seekGuard offset with
      | .error e => some (.error e)
      | .ok () =>
        match oracle offset with
        | .error e => some (.error e)
        | .ok (page, page_segment) =>
          let page_header_end := page_segment.offset + page_segment.length
          let offsets := offsets ++ [page_segment.offset]
          let segments := segments ++
            [page_segment,
             create_segment page_header_end
               (page_header_end + page.compressed_page_size) "page_data"]
          match page.data_page_header with
          | some d =>
            read_pages oracle fuel (remaining_values - d.num_values)
              (page_header_end + page.compressed_page_size) segments offsets
          | none =>
            match page.data_page_header_v2 with
            | some d2 =>
              read_pages oracle fuel (remaining_values - d2.num_values)
                (page_header_end + page.compressed_page_size) segments offsets
            | none => some (.ok (segments, offsets))
    else some (.ok (segments, offsets))

/-- `read_pages` diverges on this input: no amount of fuel finishes it. -/
def readPagesDiverges (oracle : PageOracle) (remaining offset : Int) : Prop :=
  ∀ fuel segments offsets,
    read_pages oracle fuel remaining offset segments offsets = none

/-- Oracle for `read_thrift_segment(f, offset, "footer", FileMetaData)`. -/
def FooterOracle : Type := Int → Except String (FileMetaM × SegV3)

/-- Oracle for the `read_thrift_segment` calls that only use the returned
segment (`ColumnIndex`, `OffsetIndex`, `BloomFilterHeader`). -/
def MiscOracle : Type := Int → Except String SegV3

/-- The analysis monad for v3: `Except String` (a raised exception) layered
over `Option` (`none` = the unbounded page walk ran out of fuel). -/
abbrev V3M (α : Type) : Type := ExceptT String Option α

/-- Lift an exception-or-value into the v3 analysis monad. -/
def liftE {α : Type} (e : Except String α) : V3M α := ExceptT.mk (some e)

/-- `read_dictionary_page(f, column_chunk, segments)`: decode one page
header at the dictionary page offset, append it and its `page_data`
payload segment. -/
def read_dictionary_page (oracle : PageOracle) (dictionary_page_offset : Int)
    (segments : List SegV3) : Except String (List SegV3 × Int) := do
  let _ ← seekGuard dictionary_page_offset
  let (dict_page, dict_page_segment) ← oracle dictionary_page_offset
  let segments := segments ++
    [dict_page_segment,
     create_segment (dict_page_segment.offset + dict_page_segment.length)
       (dict_page_segment.offset + dict_page_segment.length +
         dict_page.compressed_page_size) "page_data"]
  pure (segments, dict_page_segment.offset)

/-- `read_column_index` / `read_offset_index` / `read_bloom_filter`: decode
an auxiliary structure at an absolute offset and append its segment. -/
def read_misc_segment (oracle : MiscOracle) (offset : Int)
    (segments : List SegV3) : Except String (List SegV3 × Int) := do
  let _ ← seekGuard offset
  let seg ← oracle offset
  pure (segments ++ [seg], seg.offset)

/-- One column chunk of the `parse_parquet_file` row-group walk: page
walk, then dictionary page, column index, offset index and bloom filter,
each only when its offset is present in the metadata. -/
def parseColumnChunk (fuel : Nat) (pageO : PageOracle)
    (colIdxO offIdxO bloomO : MiscOracle) (segments : List SegV3)
    (cc : ColumnChunkM) : V3M (List SegV3) := do
  let (segments, _data_page_offsets) ← ExceptT.mk
    (read_pages pageO fuel cc.meta_data.num_values cc.meta_data.data_page_offset
      segments [])
  let segments ← match cc.meta_data.dictionary_page_offset with
    | some o => liftE ((read_dictionary_page pageO o segments).map (·.1))
    | none => pure segments
  let segments ← match cc.column_index_offset with
    | some o => liftE ((read_misc_segment colIdxO o segments).map (·.1))
    | none => pure segments
  let segments ← match cc.offset_index_offset with
    | some o => liftE ((read_misc_segment offIdxO o segments).map (·.1))
    | none => pure segments
  let segments ← match cc.meta_data.bloom_filter_offset with
    | some o => liftE ((read_misc_segment bloomO o segments).map (·.1))
    | none => pure segments
  pure segments

/-- `parse_parquet_file(file_path)` up to (but not including) the final
sort and `fill_gaps`: magic validation, footer location, footer decode,
and the row-group walk, accumulating the segment list.

The source also accumulates `column_chunk_data_offsets`; that value
carries no byte ranges and is dropped here. -/
def parse_core (file : List Nat) (fuel : Nat) (footO : FooterOracle)
    (pageO : PageOracle) (colIdxO offIdxO bloomO : MiscOracle) :
    V3M (List SegV3) := do
  let n : Int := file.length
  -- f.seek(0); header = f.read(4)
  if file.take 4 ≠ par1Bytes then
    throw "Not a valid Parquet file - missing PAR1 header"
  let segments : List SegV3 := [create_segment 0 4 "magic_number"]
  -- f.seek(-8, 2) raises OSError when the file is shorter than 8 bytes
  if file.length < 8 then throw "seek: invalid argument"
  let footer_size_bytes := slice file (file.length - 8) 4
  let footer_magic := slice file (file.length - 4) 4
  if footer_magic ≠ par1Bytes then
    throw "Not a valid Parquet file - missing PAR1 footer"
  let footer_size : Int := le32 footer_size_bytes
  let segments := segments ++
    [create_segment (n - 4) n "magic_number",
     create_segment (n - 8) (n - 4) "footer_length"]
  let footer_offset := n - 8 - footer_size
  let _ ← liftE (seekGuard footer_offset)
  let (footer, footer_segment) ← liftE (footO footer_offset)
  let segments := segments ++ [footer_segment]
  let segments ← footer.row_groups.foldlM
    (fun segs rg =>
      rg.columns.foldlM (parseColumnChunk fuel pageO colIdxO offIdxO bloomO) segs)
    segments
  pure segments

/-- `parse_parquet_file(file_path)`: the core walk followed by the final
`segments.sort(key=lambda s: s["offset"])` (a stable sort, modelled by
`insertionSort`) and `fill_gaps(segments, file_size)`. -/
def parse_parquet_file (file : List Nat) (fuel : Nat) (footO : FooterOracle)
    (pageO : PageOracle) (colIdxO offIdxO bloomO : MiscOracle) :
    V3M (List SegV3) :=
  ExceptT.mk <|
    (parse_core file fuel footO pageO colIdxO offIdxO bloomO).run.bind fun
      | .ok segments =>
        some (.ok (fill_gaps
          (segments.insertionSort (fun a b => a.offset ≤ b.offset))
          (file.length : Int)))
      | .error e => some (.error e)

/-! ## Enum resolution (v2 `process_primitive_value`, v3 `_get_enum`) -/

/-- A generated thrift enum class: its name and its `_VALUES_TO_NAMES`
symbol table. -/
structure EnumClassM where
  ename : String
  values_to_names : List (Int × String)
deriving DecidableEq, Repr

/-- `Enum._VALUES_TO_NAMES.get(v)`: `none` when the code is unmapped. -/
def valuesToNamesGet (e : EnumClassM) (v : Int) : Option String :=
  (e.values_to_names.find? (fun p => p.1 = v)).map (·.2)

/-- Modelled from the spec: the generated `Encoding` enum of
`parquet.ttypes` (the module is not under `src/`); the spec's enum side
table maps integer codes to symbolic names. -/
def EncodingEnum : EnumClassM :=
  { ename := "Encoding",
    values_to_names :=
      [(0, "PLAIN"), (2, "PLAIN_DICTIONARY"), (3, "RLE"), (4, "BIT_PACKED"),
       (5, "DELTA_BINARY_PACKED"), (6, "DELTA_LENGTH_BYTE_ARRAY"),
       (7, "DELTA_BYTE_ARRAY"), (8, "RLE_DICTIONARY")] }

/-- Modelled from the spec: the generated `Type` enum of `parquet.ttypes`. -/
def TypeEnum : EnumClassM :=
  { ename := "Type",
    values_to_names :=
      [(0, "BOOLEAN"), (1, "INT32"), (2, "INT64"), (3, "INT96"),
       (4, "FLOAT"), (5, "DOUBLE"), (6, "BYTE_ARRAY"),
       (7, "FIXED_LEN_BYTE_ARRAY")] }

/-- Modelled from the spec: the generated `CompressionCodec` enum. -/
def CompressionCodecEnum : EnumClassM :=
  { ename := "CompressionCodec",
    values_to_names :=
      [(0, "UNCOMPRESSED"), (1, "SNAPPY"), (2, "GZIP"), (3, "LZO"),
       (4, "BROTLI"), (5, "LZ4"), (6, "ZSTD")] }

/-- Modelled from the spec: the generated `PageType` enum. -/
def PageTypeEnum : EnumClassM :=
  { ename := "PageType",
    values_to_names :=
      [(0, "DATA_PAGE"), (1, "INDEX_PAGE"), (2, "DICTIONARY_PAGE"),
       (3, "DATA_PAGE_V2")] }

/-- `get_enum_class_for_field(field_name, struct_name)` of
`parquet_lens_v2.py`: the `['encodings', 'encoding']` loop returns
`Encoding` first, then the `(field_name, struct_name)` mapping is
consulted. -/
def get_enum_class_for_field (field_name struct_name : String) :
    Option EnumClassM :=
  if field_name = "encodings" ∨ field_name = "encoding" then some EncodingEnum
  else
    (([(("type", "ColumnMetaData"), TypeEnum),
       (("type", "SchemaElement"), TypeEnum),
       (("codec", "ColumnMetaData"), CompressionCodecEnum),
       (("page_type", "PageEncodingStats"), PageTypeEnum)] :
        List ((String × String) × EnumClassM)).find?
      (fun p => p.1 = (field_name, struct_name))).map (·.2)

/-- A v2 primitive field value. -/
inductive PrimVal where
  | pint (v : Int)
  | pstr (s : String)
  | pbytes (bs : List Nat)
deriving DecidableEq, Repr

/-- The result of v2's `process_primitive_value`. -/
inductive ProcessedVal where
  | enumPair (enum_value : Int) (enum_name : String)
  | bytesFull (hex : String) (length : Nat)
  | bytesPreview (bytes_preview : String) (length : Nat)
  | plain (v : PrimVal)
deriving DecidableEq, Repr

/-- `process_primitive_value(value, field_name, struct_name)` of
`parquet_lens_v2.py`: enum codes become `{enum_value, enum_name}` pairs
with `_VALUES_TO_NAMES.get(value, f"UNKNOWN({value})")`; byte strings
become hex (with a 16-byte preview past 32 bytes); everything else passes
through. -/
def process_primitive_value (value : Option PrimVal)
    (field_name struct_name : String) : Option ProcessedVal :=
  match value with
  | none => none
  | some v =>
    match get_enum_class_for_field field_name struct_name, v with
    | some enum_class, .pint code =>
      some (.enumPair code
        ((valuesToNamesGet enum_class code).getD
          ("UNKNOWN(" ++ toString code ++ ")")))
    | _, .pbytes bs =>
      if bs.length ≤ 32 then some (.bytesFull (bytesHex bs) bs.length)
      else some (.bytesPreview (bytesHex (bs.take 16) ++ "...") bs.length)
    | _, v => some (.plain v)

/-- The v3 `enum_map` of `OffsetRecordingProtocol`, keyed by
(parent type-class name, field name). -/
def v3EnumMap : List ((String × String) × EnumClassM) :=
  [(("ColumnMetaData", "codec"), CompressionCodecEnum),
   (("ColumnMetaData", "type"), TypeEnum),
   (("ColumnMetaData", "encodings"), EncodingEnum),
   (("SchemaElement", "type"), TypeEnum),
   (("PageEncodingStats", "encoding"), EncodingEnum),
   (("PageEncodingStats", "page_type"), PageTypeEnum),
   (("PageHeader", "type"), PageTypeEnum),
   (("DataPageHeader", "encoding"), EncodingEnum),
   (("DataPageHeaderV2", "encoding"), EncodingEnum),
   (("DictionaryPageHeader", "encoding"), EncodingEnum)]

/-- v3 `OffsetRecordingProtocol._get_enum` for a scalar field value:
returns the enum class name and `_VALUES_TO_NAMES.get(value)` — with no
default, so an unmapped code yields `None`. -/
def v3_get_enum (parent_class field_name : String) (value : Int) :
    Option (String × Option String) :=
  ((v3EnumMap.find? (fun p => p.1 = (parent_class, field_name))).map (·.2)).map
    (fun enum_class => (enum_class.ename, valuesToNamesGet enum_class value))

/-! ## v2 list fallback item ranges (`thrift_to_segments`) -/

/-- The fallback per-element ranges of v2 `thrift_to_segments` when a list
field has a recorded span but no per-element ranges: for each
`i < items_count`,
`start_pos = list_start + (i * total_size // items_count)`,
`end_pos = list_start + ((i + 1) * total_size // items_count)`, clamped to
`list_end`. -/
def fallback_item_ranges (list_start list_end items_count : Nat) :
    List (Nat × Nat) :=
  let total_size := list_end - list_start
  (List.range items_count).map fun i =>
    let start_pos := list_start + i * total_size / items_count
    let end_pos := list_start + (i + 1) * total_size / items_count
    (start_pos, if list_end < end_pos then list_end else end_pos)

/-! ## v1: `parquet_lens.py`

The v1 builder `thrift_to_dict_with_offsets` is modelled per invocation:
one call receives one struct object (its `thrift_spec` entries together
with which attributes are set) and the recorder's `field_details` map, and
produces the ordered field list.  Recursion into nested values only
re-invokes the same function at `nesting_level + 1`, which is what the
`level` parameter captures. -/

/-- One `thrift_spec` entry of the object under conversion, plus whether
`getattr(thrift_obj, field_name)` is not `None` (which is exactly when
`processed_value` ends up non-`None`). -/
structure V1FieldSpec where
  fieldId : Nat
  fieldTy : TT
  fieldName : String
  hasValue : Bool
deriving DecidableEq, Repr

/-- The object under conversion: its type name and its `thrift_spec`
(generated specs start with a `None` entry, hence the `Option`; the
enumeration index counts those entries too). -/
structure V1Obj where
  structName : String
  fields : List (Option V1FieldSpec)
deriving DecidableEq, Repr

/-- What the v1 recorder stores for one field key: header/value byte
ranges relative to the metadata blob. -/
structure V1Detail where
  headerRange : Option (Nat × Nat)
  valueRange : Option (Nat × Nat)
deriving DecidableEq, Repr

/-- `make_field_key`: the `f"{nesting_level}_{field_name}_{field_id}"`
lookup key. -/
def make_field_key (nesting_level : Nat) (field_name : String)
    (field_id : Nat) : String :=
  toString nesting_level ++ "_" ++ field_name ++ "_" ++ toString field_id

/-- The recorder's `field_details` dictionary. -/
def DetailsMap : Type := List (String × V1Detail)

/-- Dictionary lookup on a details map. -/
def lookupDetail (m : DetailsMap) (k : String) : Option V1Detail :=
  (m.find? (fun p => p.1 = k)).map (·.2)

/-- `known_required_fields` of v1 `thrift_to_dict_with_offsets`. -/
def known_required_fields (struct_name field_name : String) : Bool :=
  if struct_name = "FileMetaData" then
    field_name = "version" ∨ field_name = "schema" ∨
    field_name = "num_rows" ∨ field_name = "row_groups"
  else if struct_name = "SchemaElement" then field_name = "name"
  else if struct_name = "RowGroup" then
    field_name = "columns" ∨ field_name = "total_byte_size" ∨
    field_name = "num_rows"
  else if struct_name = "ColumnChunk" then
    field_name = "file_path" ∨ field_name = "file_offset" ∨
    field_name = "meta_data"
  else if struct_name = "ColumnMetaData" then
    field_name = "type" ∨ field_name = "encodings" ∨
    field_name = "path_in_schema" ∨ field_name = "codec" ∨
    field_name = "num_values" ∨ field_name = "total_uncompressed_size" ∨
    field_name = "total_compressed_size" ∨ field_name = "data_page_offset"
  else false

/-- `get_thrift_type_name`, reduced to the tag (type arguments carry no
byte ranges). -/
def ttName : TT → String
  | .tbool => "bool"
  | .ti32 => "i32"
  | .ti64 => "i64"
  | .tdouble => "double"
  | .tstring => "string"
  | .tstruct => "struct"
  | .tlist => "list"
  | .tother => "unknown_type"

/-- One entry of the field list built by v1 `thrift_to_dict_with_offsets`,
before `original_index` is deleted. -/
structure V1FieldData where
  fieldId : Nat
  fieldName : String
  tyName : String
  required : Bool
  headerRange : Option (Int × Int)
  valueRange : Option (Int × Int)
  originalIndex : Nat
deriving DecidableEq, Repr

/-- The same entry after `del item_copy['original_index']`. -/
structure V1FieldOut where
  fieldId : Nat
  fieldName : String
  tyName : String
  required : Bool
  headerRange : Option (Int × Int)
  valueRange : Option (Int × Int)
deriving DecidableEq, Repr

/-- `del item_copy['original_index']`. -/
def eraseOriginalIndex (f : V1FieldData) : V1FieldOut :=
  { fieldId := f.fieldId, fieldName := f.fieldName, tyName := f.tyName,
    required := f.required, headerRange := f.headerRange,
    valueRange := f.valueRange }

/-- The per-field loop body of v1 `thrift_to_dict_with_offsets`: skip
undefined optionals, then attach `field_header_range` / `value_range`
(blob-relative ranges shifted by `base_offset_in_file`). -/
def v1FieldItems (obj : V1Obj) (details : DetailsMap) (base : Int)
    (level : Nat) (showUndef : Bool) : List V1FieldData :=
  obj.fields.enum.filterMap fun (idx, entry) =>
    match entry with
    | none => none
    | some fs =>
      let required := known_required_fields obj.structName fs.fieldName
      if ¬showUndef ∧ ¬required ∧ ¬fs.hasValue then none
      else
        let d := lookupDetail details (make_field_key level fs.fieldName fs.fieldId)
        some
          { fieldId := fs.fieldId, fieldName := fs.fieldName,
            tyName := ttName fs.fieldTy, required := required,
            headerRange := (d.bind (·.headerRange)).map
              (fun r => ((r.1 : Int) + base, (r.2 : Int) + base)),
            valueRange := (d.bind (·.valueRange)).map
              (fun r => ((r.1 : Int) + base, (r.2 : Int) + base)),
            originalIndex := idx }

/-- The primary component of the v1 sort key:
`0 if has_offset else 1`, where `has_offset` is the presence of
`field_header_range`. -/
def v1KeyHas (f : V1FieldData) : Nat :=
  if f.headerRange.isSome then 0 else 1

/-- The secondary component: the field-header start offset, falling back
to the value start, with `none` standing for `float('inf')`. -/
def v1KeyStart (f : V1FieldData) : Option Int :=
  match f.headerRange with
  | some r => some r.1
  | none =>
    match f.valueRange with
    | some r => some r.1
    | none => none

/-- `<` on the start-offset component, `none` being `float('inf')`. -/
def optInfLT (a b : Option Int) : Bool :=
  match a, b with
  | some x, some y => x < y
  | some _, none => true
  | none, _ => false

/-- Python tuple `≤` on the v1 sort key
`(0 if has_offset else 1, start_offset, original_idx)`. -/
def v1SortLE (f g : V1FieldData) : Bool :=
  v1KeyHas f < v1KeyHas g ∨
    (v1KeyHas f = v1KeyHas g ∧
      (optInfLT (v1KeyStart f) (v1KeyStart g) ∨
        (v1KeyStart f = v1KeyStart g ∧ f.originalIndex ≤ g.originalIndex)))

/-- v1 `thrift_to_dict_with_offsets` before deleting `original_index`:
the field items, sorted by the sort key at top level (`temp_fields_data.sort`
is a stable sort; since `original_index` is part of the key and distinct,
any correct sort gives the same list, modelled by `insertionSort`). -/
def thriftToDictCore (obj : V1Obj) (details : DetailsMap) (base : Int)
    (level : Nat) (showUndef : Bool) : List V1FieldData :=
  let tmp := v1FieldItems obj details base level showUndef
  if level = 1 then tmp.insertionSort (fun f g => v1SortLE f g = true) else tmp

/-- v1 `thrift_to_dict_with_offsets` (field-list result; for nested
structs the source repacks this list into a dict keyed by field name,
preserving this order). -/
def thrift_to_dict_with_offsets (obj : V1Obj) (details : DetailsMap)
    (base : Int) (level : Nat) (showUndef : Bool) : List V1FieldOut :=
  (thriftToDictCore obj details base level showUndef).map eraseOriginalIndex

/-- A v1 output segment value. -/
inductive V1Val where
  | vstr (s : String)
  | vint (n : Nat)
  | vnone
deriving DecidableEq, Repr

/-- A v1 output segment: `range`, `type`, `value`, plus the blob
segment's `fields` list and `error` entry. -/
structure V1Seg where
  rangeLo : Int
  rangeHi : Int
  stype : String
  value : V1Val
  fields : List V1FieldOut
  decodeError : Option String
deriving DecidableEq, Repr

/-- Plain v1 segment (no fields payload). -/
def mkV1Seg (lo hi : Int) (ty : String) (v : V1Val) : V1Seg :=
  { rangeLo := lo, rangeHi := hi, stype := ty, value := v, fields := [],
    decodeError := none }

/-- The thrift decode oracle for v1: `FileMetaData().read(protocol)` over
a `TMemoryBuffer` of the footer bytes, yielding the decoded object and
the recorder's `field_details` (or the raised exception). -/
def V1Dec : Type := List Nat → Except String (V1Obj × DetailsMap)

/-- Result of v1 `analyze_parquet_file`: either `{"segments": ...}` or the
outer `except` result `{"error": ..., "segments": ...}` which still
carries the partial segment list. -/
inductive V1Result where
  | ok (segments : List V1Seg)
  | err (errorMsg : String) (segments : List V1Seg)
deriving DecidableEq, Repr

/-- `list.insert(1, x)`. -/
def insertAt1 {α : Type} (l : List α) (x : α) : List α :=
  match l with
  | [] => [x]
  | a :: rest => a :: x :: rest

/-- The footer length v1 reads: the 4 bytes before the trailing magic,
as an unsigned little-endian 32-bit integer. -/
def v1_footer_length (file : List Nat) : Nat :=
  le32 (slice file (file.length - 8) 4)

/-- `metadata_offset = f.tell() - 8 - footer_length` with
`f.tell() = file_size`. -/
def v1_metadata_offset (file : List Nat) : Int :=
  (file.length : Int) - 8 - v1_footer_length file

/-- `f.seek(metadata_offset); metadata_bytes = f.read(footer_length)`. -/
def v1_metadata_bytes (file : List Nat) : List Nat :=
  slice file (v1_metadata_offset file).toNat (v1_footer_length file)

/-- The final `segments.sort(key=lambda s: s["range"][0])` of v1. -/
def v1SortSegments (segs : List V1Seg) : List V1Seg :=
  segs.insertionSort (fun a b => a.rangeLo ≤ b.rangeLo)

/-- `analyze_parquet_file(file_path, ...)` of `parquet_lens.py`.

Exception points inside the `with` block are the two seeks (`f.seek(-8, 2)`
on a file shorter than 8 bytes, and `f.seek(metadata_offset)` on a
negative offset); both are caught by the outer `except Exception`, which
returns the error string together with the segments collected so far.
The thrift decode is wrapped in its own `try` and cannot escape. -/
def analyze_parquet_file (file : List Nat) (dec : V1Dec)
    (showUndef : Bool) : V1Result :=
  let n := file.length
  let magic := file.take 4
  let seg0 :=
    if magic = par1Bytes then mkV1Seg 0 4 "magic_number" (.vstr "PAR1")
    else mkV1Seg 0 magic.length "error" (.vstr (bytesHex magic))
  if n < 8 then .err "An error occurred: seek: invalid argument" [seg0]
  else
    let footer_magic := slice file (n - 4) 4
    if footer_magic = par1Bytes then
      let L := v1_footer_length file
      let segs := [seg0,
        mkV1Seg ((n : Int) - 4) (n : Int) "magic_number" (.vstr "PAR1"),
        mkV1Seg ((n : Int) - 8) ((n : Int) - 4) "footer_length" (.vint L)]
      let mo := v1_metadata_offset file
      if mo < 0 then .err "An error occurred: seek: invalid argument" segs
      else
        let blob :=
          match dec (v1_metadata_bytes file) with
          | .ok (obj, det) =>
            { rangeLo := mo, rangeHi := mo + L, stype := "thrift_metadata_blob",
              value := .vnone,
              fields := thrift_to_dict_with_offsets obj det mo 1 showUndef,
              decodeError := none }
          | .error e =>
            { rangeLo := mo, rangeHi := mo + L, stype := "thrift_metadata_blob",
              value := .vnone, fields := [],
              decodeError :=
                some ("Thrift deserialization or offset processing failed: " ++ e) }
        let segs := segs ++ [blob]
        let segs :=
          if seg0.value = .vstr "PAR1" ∧ 4 < mo then
            insertAt1 segs (mkV1Seg 4 mo "data_block_unparsed" .vnone)
          else segs
        .ok (v1SortSegments segs)
    else
      .ok (v1SortSegments [seg0,
        mkV1Seg ((n : Int) - footer_magic.length) (n : Int) "error"
          (.vstr (bytesHex footer_magic))])

/-! ## v2: `parquet_lens_v2.py` navigator -/

/-- A v2 output segment (`range`, `type`, optional `children`; value
payloads carry no byte ranges and are omitted). -/
structure SegV2 where
  rangeLo : Int
  rangeHi : Int
  stype : String
  children : List SegV2

/-- Modelled from the spec: the column-chunk fields the v2 row-group walk
reads from the decoded footer. -/
structure V2Col where
  file_offset : Option Int
  total_compressed_size : Int
deriving DecidableEq, Repr

/-- Modelled from the spec: a decoded row group as seen by v2. -/
structure V2RowGroup where
  columns : List V2Col
deriving DecidableEq, Repr

/-- Modelled from the spec: the decoded `FileMetaData` as seen by v2. -/
structure V2Meta where
  row_groups : List V2RowGroup
deriving DecidableEq, Repr

/-- The v2 footer decode oracle: `FileMetaData().read(protocol)` plus the
`thrift_to_segments` conversion of the decoded object (the external
thrift decode supplies both the object and, through the recorder's
`field_details`, the child segments). -/
def V2Dec : Type := List Nat → Except String (V2Meta × List SegV2)

/-- The v2 row-group walk (`analyze_parquet_file_v2`, final section): for
each row group, emit one `column_chunk` segment per column with a file
offset, and a `row_group` segment spanning them. -/
def v2RowGroupSegs (meta : V2Meta) : List SegV2 :=
  (meta.row_groups.enum.filterMap fun (_rgIdx, rg) =>
    let cols := rg.columns.filterMap fun cc =>
      match cc.file_offset with
      | some colStart =>
        some { rangeLo := colStart,
               rangeHi := colStart + cc.total_compressed_size,
               stype := "column_chunk", children := ([] : List SegV2) }
      | none => none
    match cols with
    | [] => none
    | c0 :: rest =>
      let rgLo := rest.foldl (fun a c => min a c.rangeLo) c0.rangeLo
      let rgHi := rest.foldl (fun a c => max a c.rangeHi) c0.rangeHi
      some { rangeLo := rgLo, rangeHi := rgHi, stype := "row_group",
             children := c0 :: rest })

/-- `analyze_parquet_file_v2(file_path, ...)` of `parquet_lens_v2.py`.

A leading- or trailing-marker mismatch `raise`s `ValueError`, which
nothing in the function catches: the caller receives the exception and no
segments.  Only the footer thrift decode is wrapped in `try`/`except`. -/
def analyze_parquet_file_v2 (file : List Nat) (dec : V2Dec) :
    Except String (List SegV2) := do
  let n := file.length
  if file.take 4 ≠ par1Bytes then
    throw "Not a valid Parquet file - missing PAR1 header"
  let segments : List SegV2 :=
    [{ rangeLo := 0, rangeHi := 4, stype := "parquet_header", children := [] }]
  if n < 8 then throw "seek: invalid argument"
  let footer_size_bytes := slice file (n - 8) 4
  let footer_magic := slice file (n - 4) 4
  if footer_magic ≠ par1Bytes then
    throw "Not a valid Parquet file - missing PAR1 footer"
  let footer_size : Nat := le32 footer_size_bytes
  let segments := segments ++
    [{ rangeLo := (n : Int) - 4, rangeHi := (n : Int), stype := "parquet_footer_magic",
       children := [] },
     { rangeLo := (n : Int) - 8, rangeHi := (n : Int) - 4, stype := "footer_size",
       children := [] }]
  let footer_start : Int := (n : Int) - 8 - footer_size
  let _ ← seekGuard footer_start
  let footer_data := slice file footer_start.toNat footer_size
  let (segments, metaOpt) :=
    match dec footer_data with
    | .ok (meta, footer_children) =>
      (segments ++
        [{ rangeLo := footer_start, rangeHi := (n : Int) - 8,
           stype := "parquet_footer", children := footer_children }],
       some meta)
    | .error _e =>
      (segments ++
        [{ rangeLo := footer_start, rangeHi := (n : Int) - 8,
           stype := "parquet_footer_error", children := [] }],
       none)
  let segments :=
    match metaOpt with
    | some meta => segments ++ v2RowGroupSegs meta
    | none => segments
  pure (segments.insertionSort (fun a b => a.rangeLo ≤ b.rangeLo))

/-! ## v2 spec-stack tracking (`OffsetRecordingProtocol` of
`parquet_lens_v2.py`)

The machine below keeps exactly the state the v2 recorder uses to track
the active thrift spec: `_current_spec`, `_parent_spec_stack` and
`_list_element_struct_spec`, identified by generated-class name.  The
transition per protocol callback mirrors the source:
push-and-switch happens inside `readFieldBegin` for `STRUCT`-typed
fields, `readStructEnd` pops whenever the stack is non-empty, and
`readListEnd` clears the list-element spec. -/

/-- What the generated `thrift_spec` supplies for one field id: the wire
type, the nested struct class for `STRUCT` fields, and the element struct
class for `LIST`-of-struct fields. -/
structure V2FieldSpec where
  ftype : TT
  nestedStruct : Option String
  listElemStruct : Option String
deriving DecidableEq, Repr

/-- A spec table: class name and field id to field spec. -/
def SpecTable : Type := String → Nat → Option V2FieldSpec

/-- The v2 recorder's spec-tracking state. -/
structure V2SpecState where
  current_spec : Option String
  parent_spec_stack : List (Option String)
  list_element_struct_spec : Option String
deriving DecidableEq, Repr

/-- Protocol callbacks relevant to spec tracking. -/
inductive V2Ev where
  | structBegin
  | structEnd
  | fieldBegin (ftype : TT) (fid : Nat)
  | fieldEnd
  | listBegin
  | listEnd
deriving DecidableEq, Repr

/-- One v2 recorder callback, restricted to its effect on the spec
state. -/
def v2SpecStep (table : SpecTable) (st : V2SpecState) : V2Ev → V2SpecState
  | .structBegin => st
  | .structEnd =>
    match st.parent_spec_stack with
    | [] => st
    | s :: rest => { st with current_spec := s, parent_spec_stack := rest }
  | .fieldBegin ftype fid =>
    if ftype = .tstruct then
      match st.list_element_struct_spec with
      | some s =>
        { st with parent_spec_stack := st.current_spec :: st.parent_spec_stack,
                  current_spec := some s }
      | none =>
        match st.current_spec.bind (fun cs => table cs fid) with
        | some fs =>
          match fs.nestedStruct with
          | some ns =>
            { st with parent_spec_stack := st.current_spec :: st.parent_spec_stack,
                      current_spec := some ns }
          | none => st
        | none => st
    else if ftype = .tlist then
      match st.current_spec.bind (fun cs => table cs fid) with
      | some fs =>
        match fs.listElemStruct with
        | some es => { st with list_element_struct_spec := some es }
        | none => st
      | none => st
    else st
  | .fieldEnd => st
  | .listBegin => st
  | .listEnd =>
    if st.list_element_struct_spec.isSome then
      { st with list_element_struct_spec := none }
    else st

/-- Run the v2 recorder's spec tracking over a callback sequence. -/
def v2SpecRun (table : SpecTable) (evs : List V2Ev) (st : V2SpecState) :
    V2SpecState :=
  evs.foldl (v2SpecStep table) st

/-- The initial v2 spec state for decoding the footer
(`struct_class=FileMetaData`). -/
def v2SpecInit : V2SpecState :=
  { current_spec := some "FileMetaData", parent_spec_stack := [],
    list_element_struct_spec := none }

/-- Modelled from the spec: the slice of the generated parquet thrift
specs (class name, field id ↦ wire type and nested classes) that the C7
trace exercises; `parquet.ttypes` is not under `src/`. -/
def parquetSpecTable : SpecTable := fun cls fid =>
  match cls, fid with
  | "FileMetaData", 1 => some ⟨.ti32, none, none⟩
  | "FileMetaData", 2 => some ⟨.tlist, none, some "SchemaElement"⟩
  | "FileMetaData", 3 => some ⟨.ti64, none, none⟩
  | "FileMetaData", 4 => some ⟨.tlist, none, some "RowGroup"⟩
  | "FileMetaData", 5 => some ⟨.tlist, none, some "KeyValue"⟩
  | "FileMetaData", 6 => some ⟨.tstring, none, none⟩
  | "RowGroup", 1 => some ⟨.tlist, none, some "ColumnChunk"⟩
  | "RowGroup", 2 => some ⟨.ti64, none, none⟩
  | "RowGroup", 3 => some ⟨.ti64, none, none⟩
  | "ColumnChunk", 1 => some ⟨.tstring, none, none⟩
  | "ColumnChunk", 2 => some ⟨.ti64, none, none⟩
  | "ColumnChunk", 3 => some ⟨.tstruct, some "ColumnMetaData", none⟩
  | "ColumnMetaData", 1 => some ⟨.ti32, none, none⟩
  | "ColumnMetaData", 2 => some ⟨.tlist, none, none⟩
  | "ColumnMetaData", 3 => some ⟨.tlist, none, none⟩
  | "ColumnMetaData", 4 => some ⟨.ti32, none, none⟩
  | "ColumnMetaData", 5 => some ⟨.ti64, none, none⟩
  | "ColumnMetaData", 6 => some ⟨.ti64, none, none⟩
  | "ColumnMetaData", 7 => some ⟨.ti64, none, none⟩
  | "ColumnMetaData", 8 => some ⟨.tlist, none, some "KeyValue"⟩
  | "ColumnMetaData", 9 => some ⟨.ti64, none, none⟩
  | "KeyValue", 1 => some ⟨.tstring, none, none⟩
  | "KeyValue", 2 => some ⟨.tstring, none, none⟩
  | _, _ => none

/-! ## v3 offset recorder (`OffsetRecordingProtocol` of `parquet_lens_v3.py`)

The recorder keeps a current offset-info dict plus a parent stack
(`_parents`/`_current`); every protocol callback either opens a child
(`_new_child`), closes one into its parent's `value` list
(`_finish_child`), or records the transport position into
`range_from`/`range_to`.  Offset-info dicts are `V3Entry` values below
(an entry is either a raw primitive appended by `_append_value`, or a
node dict); `V3EList` is its child list (a separate inductive so that
all functions stay structurally recursive and computable). -/

mutual
/-- An offset-info value entry: a raw primitive value or a nested
offset-info dict (`name`, `type`, `range_from`, `range_to`, scalar
`value`, list `value`). -/
inductive V3Entry where
  | eprim (v : Int)
  | enode (name : String) (ty : TT) (rangeFrom rangeTo : Option Nat)
      (scalar : Option Int) (children : V3EList)
/-- A list of offset-info value entries. -/
inductive V3EList where
  | lnil
  | lcons (e : V3Entry) (t : V3EList)
end

/-- Append on offset-info entry lists. -/
def elAppend : V3EList → V3EList → V3EList
  | .lnil, l => l
  | .lcons e t, l => .lcons e (elAppend t l)

/-- Append a single entry at the end (`list.append`). -/
def elSnoc (l : V3EList) (e : V3Entry) : V3EList :=
  elAppend l (.lcons e .lnil)

/-- A still-open offset-info dict (the recorder's `_current` or an entry
of `_parents`). -/
structure ONode where
  name : String
  ty : TT
  rangeFrom : Option Nat
  rangeTo : Option Nat
  scalar : Option Int
  value : V3EList

/-- Close an open node into an entry (what `_finish_child` appends to the
parent's `value`). -/
def closeNode (n : ONode) : V3Entry :=
  .enode n.name n.ty n.rangeFrom n.rangeTo n.scalar n.value

/-- `_is_complex_type`: struct/map/set/list get a list `value`. -/
def isComplex (ty : TT) : Bool :=
  ty = .tstruct ∨ ty = .tlist

/-- The recorder's mutable state: `_current` and `_parents` (innermost
parent first). -/
structure PState where
  current : ONode
  parents : List ONode

/-- Protocol callbacks as events; each carries the transport position
(`_get_pos()`) at the point the recorder reads it.  `fieldBegin` carries
the spec-resolved field name and type (`type_map[field_type_id]`); for a
`STOP` header `field_id` is 0 and no child is opened. -/
inductive PEv where
  | structBegin (pos : Nat)
  | structEnd (pos : Nat)
  | fieldBegin (pos : Nat) (ty : TT) (fid : Nat) (name : String)
  | fieldEnd (pos : Nat)
  | primRead (v : Int)

/-- One recorder callback (`readStructBegin`, `readStructEnd`,
`readFieldBegin`, `readFieldEnd`, and the primitive reads via
`_append_value`).  `none` models a raised exception (the
`assert` in `readFieldBegin`, or `_finish_child` popping an empty
parent stack).  Enum annotation (`_annotate_enum`) only decorates
metadata and records no ranges, so it is not modelled. -/
def v3Step (ev : PEv) (st : PState) : Option PState :=
  match ev with
  | .structBegin p =>
    -- if the current dict is a list field, open an "element" child first
    let st :=
      if st.current.ty = .tlist then
        { current := { name := "element", ty := .tstruct, rangeFrom := none,
                       rangeTo := none, scalar := none, value := .lnil },
          parents := st.current :: st.parents }
      else st
    some { st with current := { st.current with rangeFrom := some p } }
  | .structEnd p =>
    let cur := { st.current with rangeTo := some p }
    match st.parents with
    | parent :: rest =>
      if parent.ty = .tlist then
        some { current := { parent with value := elSnoc parent.value (closeNode cur) },
               parents := rest }
      else some { current := cur, parents := st.parents }
    | [] => some { current := cur, parents := [] }
  | .fieldBegin p ty fid name =>
    if st.current.ty ≠ .tstruct then none
    else if 0 < fid then
      some { current := { name := name, ty := ty, rangeFrom := some p,
                          rangeTo := none, scalar := none, value := .lnil },
             parents := st.current :: st.parents }
    else some st
  | .fieldEnd p =>
    let cur := { st.current with rangeTo := some p }
    match st.parents with
    | [] => none
    | parent :: rest =>
      some { current := { parent with value := elSnoc parent.value (closeNode cur) },
             parents := rest }
  | .primRead v =>
    if isComplex st.current.ty then
      some { st with current :=
        { st.current with value := elSnoc st.current.value (.eprim v) } }
    else
      some { st with current := { st.current with scalar := some v } }

/-- Run the recorder over a callback sequence. -/
def v3Run (evs : List PEv) (st : PState) : Option PState :=
  evs.foldlM (fun s e => v3Step e s) st

/-- The recorder's initial state (`__init__` with the root struct). -/
def v3Init (name : String) : PState :=
  { current := { name := name, ty := .tstruct, rangeFrom := none,
                 rangeTo := none, scalar := none, value := .lnil },
    parents := [] }

/-! ### v3 segment tree (`create_segment_from_offset_info`) -/

mutual
/-- The v3 segment tree built from offset info: raw passthrough values
and segments (`offset`, `length`, `name`, child list, scalar value). -/
inductive V3SegT where
  | raw (v : Int)
  | seg (offset length : Int) (name : String) (value : V3SegList)
      (scalar : Option Int)
/-- A list of segment-tree values. -/
inductive V3SegList where
  | snil
  | scons (s : V3SegT) (t : V3SegList)
end

mutual
/-- `create_segment_from_offset_info(info, base_offset)`: non-dict values
pass through; struct/list dicts recurse into their `value` entries;
other dicts keep their scalar value; the segment range is the recorded
range shifted by `base_offset` (`none` ranges would raise in the source,
modelled by `none`). -/
def create_segment_from_offset_info (base : Nat) : V3Entry → Option V3SegT
  | .eprim v => some (.raw v)
  | .enode nm ty rf rt sc cs =>
    match rf, rt with
    | some a, some b =>
      if ty = .tstruct ∨ ty = .tlist then
        match createSegList base cs with
        | some kids =>
          some (.seg ((base : Int) + a) ((b : Int) - (a : Int)) nm kids none)
        | none => none
      else
        some (.seg ((base : Int) + a) ((b : Int) - (a : Int)) nm .snil sc)
    | _, _ => none
/-- The recursion of `create_segment_from_offset_info` over a `value`
list. -/
def createSegList (base : Nat) : V3EList → Option V3SegList
  | .lnil => some .snil
  | .lcons e t =>
    match create_segment_from_offset_info base e, createSegList base t with
    | some s, some l => some (.scons s l)
    | _, _ => none
end

/-- Each child segment of a list lies within `[lo, hi]` (raw values carry
no range). -/
def segChildrenWithin (lo hi : Int) : V3SegList → Bool
  | .snil => true
  | .scons (.raw _) t => segChildrenWithin lo hi t
  | .scons (.seg o len _ _ _) t =>
    (lo ≤ o ∧ o + len ≤ hi) && segChildrenWithin lo hi t

/-- A segment (if it carries a range) lies within `[lo, hi]`. -/
def segInWin (lo hi : Int) : V3SegT → Bool
  | .raw _ => true
  | .seg o len _ _ _ => decide (lo ≤ o) && decide (o + len ≤ hi)

mutual
/-- The C1 property on a segment tree: every segment has
`range[0] ≤ range[1]` (non-negative length) and every child segment's
range lies within its parent's range. -/
def segOK : V3SegT → Bool
  | .raw _ => true
  | .seg o len _ kids _ =>
    (0 ≤ len) && segChildrenWithin o (o + len) kids && segListOK kids
/-- `segOK` over a child list. -/
def segListOK : V3SegList → Bool
  | .snil => true
  | .scons s t => segOK s && segListOK t
end

/-! ### Decode traces

The recorder is driven by the generated thrift `read` methods of the
external thrift package.  Modelled from the spec (§4.2, §5): the decode
walk is a depth-first pass in which every struct value issues
`readStructBegin`, its field headers (with `readFieldEnd` after each
field value), and `readStructEnd`; list values of structs decode each
element as a nested struct; primitive reads land between a field's begin
and end.  A trace records that call shape together with the transport
positions, which only ever advance. -/

mutual
/-- A field's value trace. -/
inductive VTr where
  | vprim (v : Int)
  | vstruct (s : STr)
  | vlistP (vs : List Int)
  | vlistS (es : ETrs)
  | vnone
/-- Struct list elements. -/
inductive ETrs where
  | enil
  | econs (s : STr) (rest : ETrs)
/-- One field: header position, spec-resolved type/id/name, value trace,
end position. -/
inductive FTr where
  | fmk (pH : Nat) (ty : TT) (fid : Nat) (nm : String) (v : VTr) (pE : Nat)
/-- A struct's fields. -/
inductive FTrs where
  | fnil
  | fcons (f : FTr) (rest : FTrs)
/-- A struct value: begin position, fields, end position. -/
inductive STr where
  | smk (pB : Nat) (fs : FTrs) (pE : Nat)
end

/-- Begin position of a struct trace. -/
def strPB : STr → Nat
  | .smk pB _ _ => pB

/-- End position of a struct trace. -/
def strPE : STr → Nat
  | .smk _ _ pE => pE

mutual
/-- Flatten a struct trace to recorder callbacks. -/
def flatS : STr → List PEv
  | .smk pB fs pE => .structBegin pB :: flatFs fs ++ [.structEnd pE]
/-- Flatten a field sequence. -/
def flatFs : FTrs → List PEv
  | .fnil => []
  | .fcons f rest => flatF f ++ flatFs rest
/-- Flatten one field. -/
def flatF : FTr → List PEv
  | .fmk pH ty fid nm v pE => .fieldBegin pH ty fid nm :: flatV v ++ [.fieldEnd pE]
/-- Flatten a value trace.  List begin/end callbacks record nothing in the
v3 recorder and are omitted. -/
def flatV : VTr → List PEv
  | .vprim v => [.primRead v]
  | .vstruct s => flatS s
  | .vlistP vs => vs.map .primRead
  | .vlistS es => flatE es
  | .vnone => []
/-- Flatten struct list elements. -/
def flatE : ETrs → List PEv
  | .enil => []
  | .econs s rest => flatS s ++ flatE rest
end

mutual
/-- Trace wellformedness: positions advance (each construct's recorded
positions lie within `[lo, hi]`), field ids are positive, and the
spec-resolved field type matches the value shape (struct values are
`STRUCT`-typed fields, struct lists are `LIST`-typed fields), which is
how the generated `read` methods drive the protocol. -/
def wfS (lo : Nat) : STr → Nat → Bool
  | .smk pB fs pE, hi =>
    decide (lo ≤ pB) && decide (pB ≤ pE) && wfFs pB fs pE && decide (pE ≤ hi)
/-- Wellformedness of each field of a struct, within the struct's
recorded range. -/
def wfFs (lo : Nat) : FTrs → Nat → Bool
  | .fnil, _ => true
  | .fcons f rest, hi => wfF lo f hi && wfFs lo rest hi
/-- Wellformedness of one field. -/
def wfF (lo : Nat) : FTr → Nat → Bool
  | .fmk pH ty fid _nm v pE, hi =>
    decide (lo ≤ pH) && decide (pH ≤ pE) && decide (0 < fid) &&
      wfV pH ty v pE && decide (pE ≤ hi)
/-- Wellformedness of a field's value trace. -/
def wfV (lo : Nat) (ty : TT) : VTr → Nat → Bool
  | .vprim _, _ => true
  | .vstruct s, hi => decide (ty = .tstruct) && wfS lo s hi
  | .vlistP _, _ => true
  | .vlistS es, hi => decide (ty = .tlist) && wfEs lo es hi
  | .vnone, _ => true
/-- Wellformedness of struct list elements. -/
def wfEs (lo : Nat) : ETrs → Nat → Bool
  | .enil, _ => true
  | .econs s rest, hi => wfS lo s hi && wfEs lo rest hi
end

mutual
/-- Range wellformedness of a closed offset-info entry within `[lo, hi]`:
both range endpoints are recorded, ordered, inside the window, and the
children are wellformed within the entry's own range. -/
inductive EntryWF : Nat → Nat → V3Entry → Prop where
  | prim (lo hi : Nat) (v : Int) : EntryWF lo hi (.eprim v)
  | node (lo hi a b : Nat) (nm : String) (ty : TT) (sc : Option Int)
      (cs : V3EList) (h1 : lo ≤ a) (h2 : a ≤ b) (h3 : b ≤ hi)
      (hc : EListWF a b cs) :
      EntryWF lo hi (.enode nm ty (some a) (some b) sc cs)
/-- `EntryWF` over an entry list. -/
inductive EListWF : Nat → Nat → V3EList → Prop where
  | nil (lo hi : Nat) : EListWF lo hi .lnil
  | cons (lo hi : Nat) (e : V3Entry) (t : V3EList) (he : EntryWF lo hi e)
      (ht : EListWF lo hi t) : EListWF lo hi (.lcons e t)
end

/-- The head of the recorder's parent stack is not a list dict (the parent
of an in-place struct value is the enclosing struct dict, or the stack is
empty at the root). -/
def headNotList : List ONode → Prop
  | [] => True
  | p :: _ => ¬p.ty = .tlist

/-! ## Stated properties and concrete instances -/

/-- The segments, taken in order, tile `[o, fs]`: each starts exactly
where the previous one ended. -/
def contiguousFrom (o : Int) : List SegV3 → Int → Bool
  | [], fs => decide (o = fs)
  | s :: rest, fs => decide (s.offset = o) && contiguousFrom (s.offset + s.length) rest fs

/-- Follows the spec's words (C3): the order "in which they were captured
during the depth-first decode walk" — field names ordered by the byte
position at which each capture was recorded. -/
def captureOrder (fields : List (String × Nat)) : List String :=
  (fields.insertionSort (fun a b => a.2 ≤ b.2)).map (·.1)

instance : IsTotal V1FieldData (fun f g => v1SortLE f g = true) where
  total := by
    intro f g
    simp only [v1SortLE, decide_eq_true_eq]
    rcases Nat.lt_trichotomy (v1KeyHas f) (v1KeyHas g) with h | h | h
    · left; left; exact h
    · rcases hs : v1KeyStart f with _ | x <;> rcases ht : v1KeyStart g with _ | y
      · rcases Nat.le_total f.originalIndex g.originalIndex with hle | hle
        · left; right; exact ⟨h, Or.inr ⟨rfl, hle⟩⟩
        · right; right; exact ⟨h.symm, Or.inr ⟨rfl, hle⟩⟩
      · right; right; exact ⟨h.symm, Or.inl (by simp [optInfLT])⟩
      · left; right; exact ⟨h, Or.inl (by simp [optInfLT])⟩
      · rcases Int.lt_trichotomy x y with hxy | hxy | hxy
        · left; right; exact ⟨h, Or.inl (by simp [optInfLT, hxy])⟩
        · subst hxy
          rcases Nat.le_total f.originalIndex g.originalIndex with hle | hle
          · left; right; exact ⟨h, Or.inr ⟨rfl, hle⟩⟩
          · right; right; exact ⟨h.symm, Or.inr ⟨rfl, hle⟩⟩
        · right; right; exact ⟨h.symm, Or.inl (by simp [optInfLT, hxy])⟩
    · right; left; exact h

instance : IsTrans V1FieldData (fun f g => v1SortLE f g = true) where
  trans := by
    intro a b c hab hbc
    simp only [v1SortLE, decide_eq_true_eq] at *
    rcases hab with h1 | ⟨h1, h1'⟩ <;> rcases hbc with h2 | ⟨h2, h2'⟩
    · exact Or.inl (h1.trans h2)
    · exact Or.inl (h2 ▸ h1)
    · exact Or.inl (h1 ▸ h2)
    · refine Or.inr ⟨h1.trans h2, ?_⟩
      rcases h1' with h1' | ⟨h1', h1''⟩ <;> rcases h2' with h2' | ⟨h2', h2''⟩
      · left
        rcases hs : v1KeyStart a with _ | x <;> rcases ht : v1KeyStart b with _ | y <;>
          rcases hu : v1KeyStart c with _ | z <;>
          (simp_all [optInfLT]; try omega)
      · left; rw [← h2']; exact h1'
      · left; rw [h1']; exact h2'
      · right; exact ⟨h1'.trans h2', h1''.trans h2''⟩

/-! ### Concrete instances for the claims -/

/-- A page header whose v1 data-page header declares zero values and whose
compressed size is negative by exactly the header length: the page walk
revisits the same offset forever. -/
def c8Page : PageHeaderM :=
  { compressed_page_size := -3, data_page_header := some ⟨0⟩,
    data_page_header_v2 := none }

/-- The recorded segment for `c8Page`'s header: 3 bytes at offset 20. -/
def c8Seg : SegV3 := { offset := 20, length := 3, name := "page" }

/-- A decode oracle always yielding `c8Page` (the file bytes at offset 20
decode to that header on every visit). -/
def c8Oracle : PageOracle := fun _ => .ok (c8Page, c8Seg)

/-- A benign page header declaring one value. -/
def c8GoodOracle : PageOracle := fun _ =>
  .ok ({ compressed_page_size := 5, data_page_header := some ⟨1⟩,
         data_page_header_v2 := none },
       { offset := 20, length := 3, name := "page" })

/-- C1 counterexample file: 100 bytes, valid leading/trailing magic,
declared footer length 10 (footer at offset 82). -/
def c1File : List Nat :=
  par1Bytes ++ List.replicate 88 0 ++ [10, 0, 0, 0] ++ par1Bytes

/-- C1 counterexample footer decode: one row group, one column chunk with
1 value, data pages at offset 20, nothing else. -/
def c1FootOracle : FooterOracle := fun _ =>
  .ok ({ row_groups := [{ columns := [{
            meta_data := { num_values := 1, data_page_offset := 20,
                           dictionary_page_offset := none,
                           bloom_filter_offset := none },
            column_index_offset := none, offset_index_offset := none }] }] },
       { offset := 82, length := 10, name := "footer" })

/-- C1 counterexample page decode: a 3-byte page header at offset 20
declaring 1 value but a *negative* compressed size of -2 (a legal wire
value for the signed i32 `compressed_page_size`). -/
def c1PageOracle : PageOracle := fun _ =>
  .ok ({ compressed_page_size := -2, data_page_header := some ⟨1⟩,
         data_page_header_v2 := none },
       { offset := 20, length := 3, name := "page" })

/-- An auxiliary-structure oracle that is never consulted. -/
def noMiscOracle : MiscOracle := fun _ => .error "unused"

/-- C9 witness file: 16 bytes, footer length 4 at offset 4. -/
def c9File : List Nat :=
  par1Bytes ++ [9, 9, 9, 9] ++ [4, 0, 0, 0] ++ par1Bytes

/-- C9 witness footer decode: no row groups, footer segment [4, 8). -/
def c9FootOracle : FooterOracle := fun _ =>
  .ok ({ row_groups := [] }, { offset := 4, length := 4, name := "footer" })

/-- A page oracle that is never consulted. -/
def noPageOracle : PageOracle := fun _ => .error "unused"

/-- C4 counterexample file: leading marker `"XXXX"`, valid trailing
marker and footer length 4. -/
def c4File : List Nat :=
  [88, 88, 88, 88] ++ [9, 9, 9, 9] ++ [4, 0, 0, 0] ++ par1Bytes

/-- C5 counterexample file: valid markers but declared footer length 12,
larger than the 8 bytes available before the trailer. -/
def c5File : List Nat :=
  par1Bytes ++ [0, 0, 0, 0] ++ [12, 0, 0, 0] ++ par1Bytes

/-- An event has no effect on the v2 spec stack: anything except a
struct-end or a `STRUCT`-typed field header. -/
def v2NeutralEv : V2Ev → Bool
  | .structEnd => false
  | .fieldBegin ty _ => ty ≠ .tstruct
  | _ => true

/-- The v2 `readFieldBegin` `STRUCT` branch actually pushes: either a
list-element spec is active or the field resolves to a nested struct
spec. -/
def v2PushTriggered (table : SpecTable) (st : V2SpecState) (fid : Nat) : Bool :=
  st.list_element_struct_spec.isSome ||
    (match st.current_spec.bind (fun cs => table cs fid) with
     | some fs => fs.nestedStruct.isSome
     | none => false)

/-- C7 counterexample, wire-order callbacks of a real footer decode up to
the first `KeyValue` element of `ColumnMetaData.key_value_metadata`:
`FileMetaData` begin, `row_groups` (list, id 4), `RowGroup` element,
`columns` (list, id 1 — looked up against the *FileMetaData* spec),
`ColumnChunk` element, `meta_data` (struct, id 3 — pushes and switches to
the stale list-element spec `RowGroup`), `ColumnMetaData` begin,
`key_value_metadata` (list, id 8 — no `RowGroup` field 8), list begin. -/
def c7Prefix : List V2Ev :=
  [.structBegin,
   .fieldBegin .tlist 4, .listBegin,
   .structBegin,
   .fieldBegin .tlist 1, .listBegin,
   .structBegin,
   .fieldBegin .tstruct 3,
   .structBegin,
   .fieldBegin .tlist 8, .listBegin]

/-- The balanced `KeyValue` element that follows `c7Prefix`: one
struct-begin, two string fields, one struct-end. -/
def c7Elem : List V2Ev :=
  [.structBegin,
   .fieldBegin .tstring 1, .fieldEnd,
   .fieldBegin .tstring 2, .fieldEnd,
   .structEnd]

/-- C3 counterexample: a nested struct whose spec declares `alpha` (id 1)
before `beta` (id 2), both set. -/
def c3Obj : V1Obj :=
  { structName := "SortingColumn",
    fields :=
      [none,
       some { fieldId := 1, fieldTy := .ti32, fieldName := "alpha", hasValue := true },
       some { fieldId := 2, fieldTy := .ti32, fieldName := "beta", hasValue := true }] }

/-- C3 counterexample recorder details: during the decode walk `beta` was
captured first (header at blob offset 5), `alpha` second (header at blob
offset 8). -/
def c3Details : DetailsMap :=
  [("2_beta_2", { headerRange := some (5, 6), valueRange := some (6, 8) }),
   ("2_alpha_1", { headerRange := some (8, 9), valueRange := some (9, 11) })]

/-- C2 witness file: 20 bytes, footer length 4 at offset 8. -/
def c2File : List Nat :=
  par1Bytes ++ [1, 2, 3, 4] ++ [7, 7, 7, 7] ++ [4, 0, 0, 0] ++ par1Bytes

/-- C2 witness decode: one top-level i32 field `version` with recorded
blob-relative header `[0, 1]` and value `[1, 3]`. -/
def c2Dec : V1Dec := fun _ =>
  .ok ({ structName := "FileMetaData",
         fields := [none,
           some { fieldId := 1, fieldTy := .ti32, fieldName := "version",
                  hasValue := true }] },
       [("1_version_1", { headerRange := some (0, 1), valueRange := some (1, 3) })])

/-! # Theorems -/

/-- C10: for a list field with span `[list_start, list_end]`,
`list_start < list_end` and `n > 0` elements, the fallback per-element
ranges form a partition: the `i`-th range is
`[list_start + i*size/n, list_start + (i+1)*size/n]` (integer division,
the clamp to `list_end` never firing), consecutive ranges meet, the
first starts at `list_start`, the last ends at `list_end`, and every
range lies within the list span. -/
theorem c10_fallback_ranges_partition (list_start list_end n : Nat)
    (hn : 0 < n) (hlt : list_start < list_end) :
    (fallback_item_ranges list_start list_end n).length = n ∧
    (∀ i, i < n →
      (fallback_item_ranges list_start list_end n)[i]? =
        some (list_start + i * (list_end - list_start) / n,
              list_start + (i + 1) * (list_end - list_start) / n)) ∧
    (∀ i a b, i < n →
      (fallback_item_ranges list_start list_end n)[i]? = some (a, b) →
      list_start ≤ a ∧ a ≤ b ∧ b ≤ list_end) ∧
    (∀ i a b c d, i + 1 < n →
      (fallback_item_ranges list_start list_end n)[i]? = some (a, b) →
      (fallback_item_ranges list_start list_end n)[i + 1]? = some (c, d) →
      b = c) ∧
    (∀ a b, (fallback_item_ranges list_start list_end n)[0]? = some (a, b) →
      a = list_start) ∧
    (∀ a b, (fallback_item_ranges list_start list_end n)[n - 1]? = some (a, b) →
      b = list_end) := by
  have hdiv_le : ∀ i, i ≤ n → i * (list_end - list_start) / n ≤ list_end - list_start := by
    intro i hi
    calc i * (list_end - list_start) / n
        ≤ n * (list_end - list_start) / n :=
          Nat.div_le_div_right (Nat.mul_le_mul_right _ hi)
      _ = list_end - list_start := Nat.mul_div_cancel_left _ hn
  have hget : ∀ i, i < n →
      (fallback_item_ranges list_start list_end n)[i]? =
        some (list_start + i * (list_end - list_start) / n,
              list_start + (i + 1) * (list_end - list_start) / n) := by
    intro i hi
    have hclamp : ¬ list_end < list_start + (i + 1) * (list_end - list_start) / n := by
      have := hdiv_le (i + 1) hi
      omega
    simp [fallback_item_ranges, List.getElem?_map, List.getElem?_range, hi, hclamp]
  refine ⟨by simp [fallback_item_ranges], hget, ?_, ?_, ?_, ?_⟩
  · intro i a b hi hab
    rw [hget i hi] at hab
    simp only [Option.some.injEq, Prod.mk.injEq] at hab
    obtain ⟨ha, hb⟩ := hab
    subst ha; subst hb
    have h1 : i * (list_end - list_start) / n ≤ (i + 1) * (list_end - list_start) / n :=
      Nat.div_le_div_right (Nat.mul_le_mul_right _ (by omega))
    have h2 := hdiv_le (i + 1) hi
    exact ⟨Nat.le_add_right _ _, Nat.add_le_add_left h1 _, by omega⟩
  · intro i a b c d hi hab hcd
    rw [hget i (by omega)] at hab
    rw [hget (i + 1) hi] at hcd
    simp only [Option.some.injEq, Prod.mk.injEq] at hab hcd
    obtain ⟨ha, hb⟩ := hab
    obtain ⟨hc, hd⟩ := hcd
    subst hb; subst hc
    rfl
  · intro a b hab
    rw [hget 0 hn] at hab
    simp only [Option.some.injEq, Prod.mk.injEq, Nat.zero_mul, Nat.zero_div,
      Nat.add_zero] at hab
    exact hab.1.symm
  · intro a b hab
    rw [hget (n - 1) (by omega)] at hab
    have hlast : (n - 1 + 1) * (list_end - list_start) / n = list_end - list_start := by
      have hn1 : n - 1 + 1 = n := by omega
      rw [hn1, Nat.mul_div_cancel_left _ hn]
    rw [hlast] at hab
    simp only [Option.some.injEq, Prod.mk.injEq] at hab
    obtain ⟨ha, hb⟩ := hab
    subst hb
    omega

/-- Witness for C10 at `list_start = 10`, `list_end = 20`, `n = 3`. -/
theorem c10_witness :
    (fallback_item_ranges 10 20 3).length = 3 ∧
    fallback_item_ranges 10 20 3 =
      [(10, 13), (13, 16), (16, 20)] :=
  ⟨(c10_fallback_ranges_partition 10 20 3 (by decide) (by decide)).1, by decide⟩

/-- The C8 adversarial page walk never finishes: each iteration re-reads
the same header (zero declared values, compressed size `-3` cancelling
the 3-byte header) without decreasing the remaining count or moving the
offset. -/
theorem c8_read_pages_diverges_aux :
    ∀ fuel segments offsets,
      read_pages c8Oracle fuel 1 20 segments offsets = none := by
  intro fuel
  induction fuel with
  | zero => intro segments offsets; rfl
  | succ fuel ih =>
    intro segments offsets
    show read_pages c8Oracle (fuel + 1) 1 20 segments offsets = none
    simp only [read_pages, c8Oracle, c8Page, c8Seg, seekGuard]
    norm_num
    exact ih _ _

/-- C8 counterexample: a column chunk declaring 1 value whose first page
header declares `num_values = 0` and `compressed_page_size = -3` makes
`read_pages` loop forever — the walk does not terminate, contradicting
the claim that it never loops indefinitely. -/
theorem c8_counterexample : readPagesDiverges c8Oracle 1 20 :=
  fun fuel segments offsets => c8_read_pages_diverges_aux fuel segments offsets

/-- C8 amended: the page-header walk terminates whenever every decoded
page header carrying a recognized data-page header (v1 or v2) declares at
least one value: the walk stops by exhausting the declared value count,
by an unrecognized page kind, or by a raised decode/seek error. -/
theorem c8_amended_read_pages_terminates (oracle : PageOracle)
    (hpos : ∀ off p s, oracle off = .ok (p, s) →
      (∀ d, p.data_page_header = some d → 1 ≤ d.num_values) ∧
      (∀ d, p.data_page_header_v2 = some d → 1 ≤ d.num_values)) :
    ∀ remaining offset segments offsets, ∃ res,
      read_pages oracle (remaining.toNat + 1) remaining offset segments offsets =
        some res := by
  suffices h : ∀ fuel remaining, remaining.toNat < fuel →
      ∀ offset segments offsets, ∃ res,
        read_pages oracle fuel remaining offset segments offsets = some res by
    intro remaining offset segments offsets
    exact h (remaining.toNat + 1) remaining (by omega) offset segments offsets
  intro fuel
  induction fuel with
  | zero => intro remaining h; omega
  | succ fuel ih =>
    intro remaining hrem offset segments offsets
    by_cases hr : remaining > 0
    · by_cases hoff : offset < 0
      · exact ⟨_, by rw [read_pages]; simp [if_pos hr, seekGuard, if_pos hoff]; rfl⟩
      · rcases horacle : oracle offset with e | ⟨page, page_segment⟩
        · exact ⟨_, by
            rw [read_pages]; simp [if_pos hr, seekGuard, if_neg hoff, horacle]; rfl⟩
        · have hnv := hpos offset page page_segment horacle
          rcases hdp : page.data_page_header with _ | d
          · rcases hdp2 : page.data_page_header_v2 with _ | d2
            · exact ⟨_, by
                rw [read_pages]
                simp [if_pos hr, seekGuard, if_neg hoff, horacle, hdp, hdp2]; rfl⟩
            · have h1 : 1 ≤ d2.num_values := hnv.2 d2 hdp2
              have hlt : (remaining - d2.num_values).toNat < fuel := by omega
              obtain ⟨res, hres⟩ := ih (remaining - d2.num_values) hlt
                (page_segment.offset + page_segment.length + page.compressed_page_size)
                (segments ++
                  [page_segment,
                   create_segment (page_segment.offset + page_segment.length)
                     (page_segment.offset + page_segment.length +
                       page.compressed_page_size) "page_data"])
                (offsets ++ [page_segment.offset])
              exact ⟨res, by
                rw [read_pages]
                simp only [if_pos hr, seekGuard, if_neg hoff, horacle, hdp, hdp2,
                  if_neg (by omega : ¬ offset < 0)]
                exact hres⟩
          · have h1 : 1 ≤ d.num_values := hnv.1 d hdp
            have hlt : (remaining - d.num_values).toNat < fuel := by omega
            obtain ⟨res, hres⟩ := ih (remaining - d.num_values) hlt
              (page_segment.offset + page_segment.length + page.compressed_page_size)
              (segments ++
                [page_segment,
                 create_segment (page_segment.offset + page_segment.length)
                   (page_segment.offset + page_segment.length +
                     page.compressed_page_size) "page_data"])
              (offsets ++ [page_segment.offset])
            exact ⟨res, by
              rw [read_pages]
              simp only [if_pos hr, seekGuard, if_neg hoff, horacle, hdp,
                if_neg (by omega : ¬ offset < 0)]
              exact hres⟩
    · exact ⟨_, by rw [read_pages, if_neg hr]⟩

/-- Witness for C8 amended: a benign constant oracle (one value per
page) finishes the walk. -/
theorem c8_amended_witness :
    ∃ res, read_pages c8GoodOracle ((1 : Int).toNat + 1) 1 20 [] [] = some res :=
  c8_amended_read_pages_terminates c8GoodOracle
    (fun _off p s h => by
      cases h
      exact ⟨fun d hd => by cases hd; decide, fun d hd => by cases hd⟩)
    1 20 [] []

/-- `fill_gaps` output tiles `[o, file_size]` exactly, whatever the input
segments are: every inserted filler starts where the previous segment
ended and ends where the next begins. -/
theorem fillGapsGo_contiguous (segs : List SegV3) :
    ∀ (o fs : Int), contiguousFrom o (fillGapsGo o segs fs) fs = true := by
  induction segs with
  | nil =>
    intro o fs
    by_cases h : o = fs
    · simp [fillGapsGo, h, contiguousFrom]
    · simp [fillGapsGo, h, contiguousFrom, create_segment]
  | cons s rest ih =>
    intro o fs
    by_cases h : s.offset = o
    · simp only [fillGapsGo, h, ite_not]
      simp [contiguousFrom, h, ih]
    · simp only [fillGapsGo, if_neg (by simpa using h)]
      simp [contiguousFrom, create_segment, h, ih]

/-- A contiguous tiling of `[o, fs]` covers every point of `[o, fs)`. -/
theorem contiguous_covers (l : List SegV3) :
    ∀ (o fs p : Int), contiguousFrom o l fs = true → o ≤ p → p < fs →
      ∃ s ∈ l, s.offset ≤ p ∧ p < s.offset + s.length := by
  induction l with
  | nil =>
    intro o fs p hc hop hp
    simp [contiguousFrom] at hc
    omega
  | cons s rest ih =>
    intro o fs p hc hop hp
    simp only [contiguousFrom, Bool.and_eq_true, decide_eq_true_eq] at hc
    obtain ⟨ho, hrest⟩ := hc
    by_cases hin : p < s.offset + s.length
    · exact ⟨s, List.mem_cons_self .., by omega, hin⟩
    · obtain ⟨s', hs', h1, h2⟩ := ih (s.offset + s.length) fs p hrest (by omega) hp
      exact ⟨s', List.mem_cons_of_mem _ hs', h1, h2⟩

/-- Every segment returned by `fill_gaps` is either an input segment or a
synthesized `"unknown"` segment. -/
theorem fillGapsGo_mem (segs : List SegV3) :
    ∀ (o fs : Int) s, s ∈ fillGapsGo o segs fs → s ∈ segs ∨ s.name = "unknown" := by
  induction segs with
  | nil =>
    intro o fs s hs
    unfold fillGapsGo at hs
    split at hs
    · simp at hs; subst hs; exact Or.inr rfl
    · simp at hs
  | cons seg rest ih =>
    intro o fs s hs
    unfold fillGapsGo at hs
    rw [List.mem_append] at hs
    rcases hs with hs | hs
    · split at hs
      · simp at hs; subst hs; exact Or.inr rfl
      · simp at hs
    · rcases List.mem_cons.mp hs with hs | hs
      · exact Or.inl (by simp [hs])
      · rcases ih _ _ _ hs with h' | h'
        · exact Or.inl (List.mem_cons_of_mem _ h')
        · exact Or.inr h'

/-- Any successful result of v3 `parse_parquet_file` is the gap-filled
sorted segment list. -/
theorem parse_parquet_file_ok (file : List Nat) (fuel : Nat)
    (footO : FooterOracle) (pageO : PageOracle)
    (colIdxO offIdxO bloomO : MiscOracle) (segs : List SegV3)
    (h : parse_parquet_file file fuel footO pageO colIdxO offIdxO bloomO =
      ExceptT.mk (some (.ok segs))) :
    ∃ pre : List SegV3, segs =
      fill_gaps (pre.insertionSort (fun a b => a.offset ≤ b.offset))
        (file.length : Int) := by
  unfold parse_parquet_file at h
  rcases hc : (parse_core file fuel footO pageO colIdxO offIdxO bloomO).run with
    _ | ⟨e | pre⟩
  · rw [hc] at h
    exact absurd (show (none : Option (Except String (List SegV3))) =
      some (.ok segs) from h) (by simp)
  · rw [hc] at h
    have h2 : some (Except.error (α := List SegV3) e) = some (.ok segs) := h
    simp at h2
  · rw [hc] at h
    refine ⟨pre, ?_⟩
    have h2 : some (Except.ok (ε := String)
        (fill_gaps (List.insertionSort (fun a b => a.offset ≤ b.offset) pre)
          (file.length : Int))) = some (.ok segs) := h
    exact (Except.ok.inj (Option.some.inj h2)).symm

/-- C9: every successful v3 analysis returns a segment list that, taken
in order, is contiguous from offset 0 to the file size; every byte of the
file is covered by some segment; and every returned segment either came
from a recognized region or is a synthesized `"unknown"` segment. -/
theorem c9_full_coverage (file : List Nat) (fuel : Nat)
    (footO : FooterOracle) (pageO : PageOracle)
    (colIdxO offIdxO bloomO : MiscOracle) (segs : List SegV3)
    (h : parse_parquet_file file fuel footO pageO colIdxO offIdxO bloomO =
      ExceptT.mk (some (.ok segs))) :
    contiguousFrom 0 segs (file.length : Int) = true ∧
    (∀ p : Int, 0 ≤ p → p < (file.length : Int) →
      ∃ s ∈ segs, s.offset ≤ p ∧ p < s.offset + s.length) ∧
    (∃ pre, segs = fill_gaps pre (file.length : Int) ∧
      ∀ s ∈ segs, s ∈ pre ∨ s.name = "unknown") := by
  obtain ⟨pre, hpre⟩ := parse_parquet_file_ok file fuel footO pageO colIdxO
    offIdxO bloomO segs h
  subst hpre
  refine ⟨fillGapsGo_contiguous _ 0 _, ?_, ?_⟩
  · intro p h0 hp
    exact contiguous_covers _ 0 _ p (fillGapsGo_contiguous _ 0 _) h0 hp
  · exact ⟨_, rfl, fun s hs => fillGapsGo_mem _ 0 _ s hs⟩

/-- Witness for C9: a concrete 16-byte file with an empty-metadata footer
analyzes successfully; the theorem applies to it. -/
theorem c9_witness :
    contiguousFrom 0
      (fill_gaps
        (([create_segment 0 4 "magic_number",
           create_segment 12 16 "magic_number",
           create_segment 8 12 "footer_length",
           { offset := 4, length := 4, name := "footer" }] :
            List SegV3).insertionSort (fun a b => a.offset ≤ b.offset))
        (16 : Int)) 16 = true :=
  (c9_full_coverage c9File 1 c9FootOracle noPageOracle noMiscOracle
    noMiscOracle noMiscOracle _ rfl).1

/-- C6 counterexample: the v3 recorder resolves an unmapped enum code
(999 for `DataPageHeader.encoding`) to `None`, not to the string
`"UNKNOWN(999)"` the claim requires for every version of the builder. -/
theorem c6_counterexample :
    v3_get_enum "DataPageHeader" "encoding" 999 = some ("Encoding", none) ∧
    some (("Encoding" : String), (none : Option String)) ≠
      some ("Encoding", some ("UNKNOWN(" ++ toString (999 : Int) ++ ")")) := by
  constructor
  · rfl
  · decide

/-- C6 amended: for an enum-typed primitive field whose code has no entry
in the symbol table, the v2 builder emits the `{code, name}` pair with
name `"UNKNOWN(<code>)"` and succeeds; the v3 recorder also succeeds but
annotates the symbolic name as `None`. -/
theorem c6_amended_unknown_enum (code : Int) (field_name struct_name : String)
    (e : EnumClassM)
    (hclass : get_enum_class_for_field field_name struct_name = some e)
    (hun : valuesToNamesGet e code = none) :
    process_primitive_value (some (.pint code)) field_name struct_name =
      some (.enumPair code ("UNKNOWN(" ++ toString code ++ ")")) ∧
    (∀ parent_class fname e2,
      ((v3EnumMap.find? (fun p => p.1 = (parent_class, fname))).map (·.2)) = some e2 →
      valuesToNamesGet e2 code = none →
      v3_get_enum parent_class fname code = some (e2.ename, none)) := by
  constructor
  · simp [process_primitive_value, hclass, hun]
  · intro parent_class fname e2 hfind hnone
    simp [v3_get_enum, hfind, hnone]

/-- Witness for C6 amended at code 999 of the `Encoding` table. -/
theorem c6_amended_witness :
    process_primitive_value (some (.pint 999)) "encoding" "PageHeader" =
      some (.enumPair 999 ("UNKNOWN(" ++ toString (999 : Int) ++ ")")) :=
  (c6_amended_unknown_enum 999 "encoding" "PageHeader" EncodingEnum
    (by decide) (by decide)).1

/-- Spec-neutral events preserve the v2 active spec and its stack. -/
theorem v2SpecRun_neutral (table : SpecTable) (body : List V2Ev)
    (hbody : body.all v2NeutralEv = true) :
    ∀ st : V2SpecState,
      (v2SpecRun table body st).current_spec = st.current_spec ∧
      (v2SpecRun table body st).parent_spec_stack = st.parent_spec_stack := by
  induction body with
  | nil => intro st; exact ⟨rfl, rfl⟩
  | cons ev rest ih =>
    simp only [List.all_cons, Bool.and_eq_true] at hbody
    intro st
    have hstep : (v2SpecStep table st ev).current_spec = st.current_spec ∧
        (v2SpecStep table st ev).parent_spec_stack = st.parent_spec_stack := by
      cases ev with
      | structBegin => exact ⟨rfl, rfl⟩
      | structEnd => simp [v2NeutralEv] at hbody
      | fieldBegin ty fid =>
        have hty : ¬ty = .tstruct := by
          have := hbody.1
          simpa [v2NeutralEv, decide_eq_true_eq] using this
        simp only [v2SpecStep]
        rw [if_neg hty]
        by_cases hl : ty = .tlist
        · rw [if_pos hl]
          constructor <;> (split <;> first | rfl | (split <;> rfl))
        · rw [if_neg hl]
          exact ⟨rfl, rfl⟩
      | fieldEnd => exact ⟨rfl, rfl⟩
      | listBegin => exact ⟨rfl, rfl⟩
      | listEnd =>
        simp only [v2SpecStep]
        split <;> exact ⟨rfl, rfl⟩
    have := ih hbody.2 (v2SpecStep table st ev)
    exact ⟨this.1.trans hstep.1, this.2.trans hstep.2⟩

/-- C7 amended: spec restoration does hold for a `STRUCT`-typed field
whose nested decode performs no spec-stack operations (no struct-ends, no
nested `STRUCT` field headers — e.g. an all-primitive nested struct):
the push at the field header is popped by the struct-end, restoring the
active spec and the stack.  (In general the v2 pop is not matched to the
push — see the counterexample.) -/
theorem c7_amended_restore (table : SpecTable) (st : V2SpecState) (fid : Nat)
    (body : List V2Ev) (hbody : body.all v2NeutralEv = true)
    (hpush : v2PushTriggered table st fid = true) :
    (v2SpecRun table (.fieldBegin .tstruct fid :: body ++ [.structEnd]) st).current_spec =
      st.current_spec ∧
    (v2SpecRun table (.fieldBegin .tstruct fid :: body ++ [.structEnd]) st).parent_spec_stack =
      st.parent_spec_stack := by
  have hpushed : ∃ cur, v2SpecStep table st (.fieldBegin .tstruct fid) =
      { current_spec := some cur,
        parent_spec_stack := st.current_spec :: st.parent_spec_stack,
        list_element_struct_spec := st.list_element_struct_spec } := by
    rcases hles : st.list_element_struct_spec with _ | s
    · have hpush' := hpush
      simp only [v2PushTriggered, hles, Option.isSome_none, Bool.false_or] at hpush'
      rcases hb : (Option.bind st.current_spec fun cs => table cs fid) with _ | fs
      · rw [hb] at hpush'; simp at hpush'
      · rw [hb] at hpush'
        rcases hns : fs.nestedStruct with _ | ns
        · simp [hns] at hpush'
        · exact ⟨ns, by simp [v2SpecStep, hles, hb, hns]⟩
    · exact ⟨s, by simp [v2SpecStep, hles]⟩
  obtain ⟨cur, hcur⟩ := hpushed
  have hrun : v2SpecRun table (.fieldBegin .tstruct fid :: body ++ [.structEnd]) st =
      v2SpecStep table
        (v2SpecRun table body (v2SpecStep table st (.fieldBegin .tstruct fid)))
        .structEnd := by
    simp [v2SpecRun, List.foldl_append]
  rw [hrun, hcur]
  obtain ⟨h1, h2⟩ := v2SpecRun_neutral table body hbody
    { current_spec := some cur,
      parent_spec_stack := st.current_spec :: st.parent_spec_stack,
      list_element_struct_spec := st.list_element_struct_spec }
  constructor
  · simp only [v2SpecStep, h2, h1]
  · simp only [v2SpecStep, h2, h1]

/-- Witness for C7 amended: `ColumnChunk.meta_data` (field 3) with an
all-primitive body restores the active spec. -/
theorem c7_amended_witness :
    (v2SpecRun parquetSpecTable
      (.fieldBegin .tstruct 3 :: [.fieldBegin .ti32 1, .fieldEnd] ++ [.structEnd])
      { current_spec := some "ColumnChunk", parent_spec_stack := [],
        list_element_struct_spec := none }).current_spec =
      some "ColumnChunk" :=
  (c7_amended_restore parquetSpecTable
    { current_spec := some "ColumnChunk", parent_spec_stack := [],
      list_element_struct_spec := none } 3
    [.fieldBegin .ti32 1, .fieldEnd] (by decide) (by decide)).1

/-- C7 counterexample: on the real footer layout, right before the
`KeyValue` element the active spec is `RowGroup` (itself already wrong),
and after the element's matched struct-begin/struct-end pair the active
spec is `FileMetaData`: the pop stole the entry pushed for the enclosing
`meta_data` field, so the schema active after a struct-end is not the one
active before its matching struct-begin. -/
theorem c7_counterexample :
    (v2SpecRun parquetSpecTable c7Prefix v2SpecInit).current_spec =
      some "RowGroup" ∧
    (v2SpecRun parquetSpecTable (c7Prefix ++ c7Elem) v2SpecInit).current_spec =
      some "FileMetaData" ∧
    (some "RowGroup" : Option String) ≠ some "FileMetaData" := by
  refine ⟨rfl, rfl, ?_⟩
  decide

/-- A hex rendering has two characters per byte (so it can never equal
the four-character string `"PAR1"` for a 4-byte input). -/
theorem bytesHex_length (bs : List Nat) : (bytesHex bs).length = 2 * bs.length := by
  induction bs with
  | nil => rfl
  | cons b rest ih =>
    show (String.mk [hexChar ((b % 256) / 16), hexChar (b % 16)] ++ bytesHex rest).length
      = 2 * (rest.length + 1)
    rw [String.length_append]
    have h2 : (String.mk [hexChar ((b % 256) / 16), hexChar (b % 16)]).length = 2 := rfl
    omega

/-- C5 counterexample: a file whose declared footer length (12) exceeds
the space before the trailer makes v3 `parse_parquet_file` raise out of
`f.seek` with a negative offset; the exception propagates to the caller,
who receives no segments at all. -/
theorem c5_counterexample :
    parse_parquet_file c5File 1 c9FootOracle noPageOracle noMiscOracle
      noMiscOracle noMiscOracle =
      ExceptT.mk (some (.error "seek: invalid argument")) := rfl

/-- C5 amended: the v1 analyzer does catch the out-of-range footer start:
its outer exception handler converts the seek failure into an error value
that still carries the three segments collected so far (leading marker or
error, trailing marker, footer length), so the v1 caller receives a
partial result rather than an exception — while v2/v3 propagate the
exception (see the counterexample). -/
theorem c5_amended_v1_catches (file : List Nat) (dec : V1Dec) (su : Bool)
    (h8 : 8 ≤ file.length)
    (htrail : slice file (file.length - 4) 4 = par1Bytes)
    (hL : (file.length : Int) - 8 < (v1_footer_length file : Int)) :
    ∃ segs, analyze_parquet_file file dec su =
      .err "An error occurred: seek: invalid argument" segs ∧ segs.length = 3 := by
  have hn8 : ¬file.length < 8 := by omega
  have hmo : v1_metadata_offset file < 0 := by
    unfold v1_metadata_offset
    omega
  by_cases hm : file.take 4 = par1Bytes
  · refine ⟨[mkV1Seg 0 4 "magic_number" (.vstr "PAR1"),
      mkV1Seg ((file.length : Int) - 4) (file.length : Int) "magic_number"
        (.vstr "PAR1"),
      mkV1Seg ((file.length : Int) - 8) ((file.length : Int) - 4)
        "footer_length" (.vint (v1_footer_length file))], ?_, rfl⟩
    simp only [analyze_parquet_file, if_pos hm, if_neg hn8, if_pos htrail,
      if_pos hmo]
  · refine ⟨[mkV1Seg 0 ((file.take 4).length : Int) "error"
        (.vstr (bytesHex (file.take 4))),
      mkV1Seg ((file.length : Int) - 4) (file.length : Int) "magic_number"
        (.vstr "PAR1"),
      mkV1Seg ((file.length : Int) - 8) ((file.length : Int) - 4)
        "footer_length" (.vint (v1_footer_length file))], ?_, rfl⟩
    simp only [analyze_parquet_file, if_neg hm, if_neg hn8, if_pos htrail,
      if_pos hmo]

/-- Witness for C5 amended on a concrete file whose declared footer
length 12 exceeds the 8 available bytes. -/
theorem c5_amended_witness :
    ∃ segs, analyze_parquet_file c5File (fun _ => .error "unused") false =
      .err "An error occurred: seek: invalid argument" segs ∧ segs.length = 3 :=
  c5_amended_v1_catches c5File (fun _ => .error "unused") false
    (by decide) (by decide) (by decide)

/-- C4 counterexample: on a file with leading marker `"XXXX"` and a valid
trailer, the v2 analyzer raises `ValueError` instead of emitting an error
segment and continuing — the caller gets an exception and no segments. -/
theorem c4_counterexample :
    analyze_parquet_file_v2 c4File (fun _ => .error "unused") =
      .error "Not a valid Parquet file - missing PAR1 header" := rfl

/-- C4 amended: the v1 analyzer behaves as claimed: on a file whose
leading 4 bytes differ from the marker (valid trailer, in-range footer
length) it does not raise, emits exactly one `error`-typed segment, that
segment covers the leading bytes `[0, 4]`, and the remainder of the
analysis is still attempted (the footer-length and metadata-blob segments
are present). -/
theorem c4_amended_v1_continues (file : List Nat) (dec : V1Dec) (su : Bool)
    (h8 : 8 ≤ file.length)
    (hbad : ¬file.take 4 = par1Bytes)
    (htrail : slice file (file.length - 4) 4 = par1Bytes)
    (hL : (v1_footer_length file : Int) ≤ (file.length : Int) - 8) :
    ∃ segs, analyze_parquet_file file dec su = .ok segs ∧
      segs.countP (fun s => s.stype = "error") = 1 ∧
      (∀ s ∈ segs, s.stype = "error" → s.rangeLo = 0 ∧ s.rangeHi = 4) ∧
      (∃ s ∈ segs, s.stype = "footer_length") ∧
      (∃ s ∈ segs, s.stype = "thrift_metadata_blob") := by
  have hn8 : ¬file.length < 8 := by omega
  have hmo : ¬v1_metadata_offset file < 0 := by
    unfold v1_metadata_offset
    omega
  have hms : ((file.take 4).length : Int) = 4 := by
    rw [List.length_take]
    omega
  have hseg0 : ¬((mkV1Seg 0 ((file.take 4).length : Int) "error"
      (.vstr (bytesHex (file.take 4)))).value = .vstr "PAR1" ∧
      4 < v1_metadata_offset file) := by
    rintro ⟨hv, -⟩
    have hlen := congrArg (fun v => match v with | V1Val.vstr s => s.length | _ => 0) hv
    simp only [mkV1Seg] at hlen
    rw [bytesHex_length] at hlen
    have h4 : (file.take 4).length = 4 := by rw [List.length_take]; omega
    rw [h4] at hlen
    exact absurd hlen (by decide)
  -- common tail: the four pre-sort segments determine all four properties
  have main : ∀ blob : V1Seg, blob.stype = "thrift_metadata_blob" →
      ∀ segs, segs = v1SortSegments
        [mkV1Seg 0 ((file.take 4).length : Int) "error"
          (.vstr (bytesHex (file.take 4))),
         mkV1Seg ((file.length : Int) - 4) (file.length : Int) "magic_number"
           (.vstr "PAR1"),
         mkV1Seg ((file.length : Int) - 8) ((file.length : Int) - 4)
           "footer_length" (.vint (v1_footer_length file)),
         blob] →
      segs.countP (fun s => s.stype = "error") = 1 ∧
      (∀ s ∈ segs, s.stype = "error" → s.rangeLo = 0 ∧ s.rangeHi = 4) ∧
      (∃ s ∈ segs, s.stype = "footer_length") ∧
      (∃ s ∈ segs, s.stype = "thrift_metadata_blob") := by
    intro blob hblob segs hsegs
    have hperm : segs.Perm
        [mkV1Seg 0 ((file.take 4).length : Int) "error"
          (.vstr (bytesHex (file.take 4))),
         mkV1Seg ((file.length : Int) - 4) (file.length : Int) "magic_number"
           (.vstr "PAR1"),
         mkV1Seg ((file.length : Int) - 8) ((file.length : Int) - 4)
           "footer_length" (.vint (v1_footer_length file)),
         blob] := by
      rw [hsegs]
      exact List.perm_insertionSort _ _
    refine ⟨?_, ?_, ?_, ?_⟩
    · rw [hperm.countP_eq]
      simp [List.countP_cons, mkV1Seg, hblob]
    · intro s hs herr
      rw [hperm.mem_iff] at hs
      simp only [List.mem_cons, List.not_mem_nil, or_false] at hs
      rcases hs with hs | hs | hs | hs
      · subst hs
        exact ⟨rfl, hms⟩
      · subst hs; exact absurd herr (by simp [mkV1Seg])
      · subst hs; exact absurd herr (by simp [mkV1Seg])
      · rw [hs] at herr
        rw [hblob] at herr
        exact absurd herr (by decide)
    · refine ⟨mkV1Seg ((file.length : Int) - 8) ((file.length : Int) - 4)
        "footer_length" (.vint (v1_footer_length file)), ?_, rfl⟩
      rw [hperm.mem_iff]
      simp
    · exact ⟨blob, by rw [hperm.mem_iff]; simp, hblob⟩
  rcases hdec : dec (v1_metadata_bytes file) with e | ⟨obj, det⟩
  · have heq : analyze_parquet_file file dec su = .ok (v1SortSegments
        [mkV1Seg 0 ((file.take 4).length : Int) "error"
          (.vstr (bytesHex (file.take 4))),
         mkV1Seg ((file.length : Int) - 4) (file.length : Int) "magic_number"
           (.vstr "PAR1"),
         mkV1Seg ((file.length : Int) - 8) ((file.length : Int) - 4)
           "footer_length" (.vint (v1_footer_length file)),
         { rangeLo := v1_metadata_offset file,
           rangeHi := v1_metadata_offset file + v1_footer_length file,
           stype := "thrift_metadata_blob", value := .vnone, fields := [],
           decodeError :=
             some ("Thrift deserialization or offset processing failed: " ++ e) }]) := by
      simp only [analyze_parquet_file, if_neg hbad, if_neg hn8, if_pos htrail,
        if_neg hmo, hdec, if_neg hseg0]
      rfl
    exact ⟨_, heq, main _ rfl _ rfl⟩
  · have heq : analyze_parquet_file file dec su = .ok (v1SortSegments
        [mkV1Seg 0 ((file.take 4).length : Int) "error"
          (.vstr (bytesHex (file.take 4))),
         mkV1Seg ((file.length : Int) - 4) (file.length : Int) "magic_number"
           (.vstr "PAR1"),
         mkV1Seg ((file.length : Int) - 8) ((file.length : Int) - 4)
           "footer_length" (.vint (v1_footer_length file)),
         { rangeLo := v1_metadata_offset file,
           rangeHi := v1_metadata_offset file + v1_footer_length file,
           stype := "thrift_metadata_blob", value := .vnone,
           fields := thrift_to_dict_with_offsets obj det
             (v1_metadata_offset file) 1 su,
           decodeError := none }]) := by
      simp only [analyze_parquet_file, if_neg hbad, if_neg hn8, if_pos htrail,
        if_neg hmo, hdec, if_neg hseg0]
      rfl
    exact ⟨_, heq, main _ rfl _ rfl⟩

/-- Witness for C4 amended on the concrete `"XXXX"`-headed file. -/
theorem c4_amended_witness :
    ∃ segs, analyze_parquet_file c4File (fun _ => .error "unused") false = .ok segs ∧
      segs.countP (fun s => s.stype = "error") = 1 ∧
      (∀ s ∈ segs, s.stype = "error" → s.rangeLo = 0 ∧ s.rangeHi = 4) ∧
      (∃ s ∈ segs, s.stype = "footer_length") ∧
      (∃ s ∈ segs, s.stype = "thrift_metadata_blob") :=
  c4_amended_v1_continues c4File (fun _ => .error "unused") false
    (by decide) (by decide) (by decide) (by decide)

/-- Every field-header (and value) range emitted by the v1 builder is the
blob-relative recorded range shifted by `base_offset_in_file`. -/
theorem v1_ranges_absolute (obj : V1Obj) (det : DetailsMap) (base : Int)
    (level : Nat) (su : Bool) :
    ∀ f ∈ thrift_to_dict_with_offsets obj det base level su, ∀ a b,
      f.headerRange = some (a, b) →
      ∃ r1 r2 d,
        lookupDetail det (make_field_key level f.fieldName f.fieldId) = some d ∧
        d.headerRange = some (r1, r2) ∧ a = (r1 : Int) + base ∧ b = (r2 : Int) + base := by
  intro f hf a b hr
  unfold thrift_to_dict_with_offsets at hf
  rw [List.mem_map] at hf
  obtain ⟨g, hg, hfg⟩ := hf
  have hgitems : g ∈ v1FieldItems obj det base level su := by
    unfold thriftToDictCore at hg
    by_cases hl : level = 1
    · rw [if_pos hl] at hg
      exact (List.perm_insertionSort _ _).mem_iff.mp hg
    · rwa [if_neg hl] at hg
  unfold v1FieldItems at hgitems
  rw [List.mem_filterMap] at hgitems
  obtain ⟨⟨idx, entry⟩, _hmem, hbody⟩ := hgitems
  rcases entry with _ | fs
  · simp at hbody
  · simp only at hbody
    split at hbody
    · simp at hbody
    · rw [Option.some.injEq] at hbody
      subst hbody
      subst hfg
      simp only [eraseOriginalIndex] at hr ⊢
      rcases hd : lookupDetail det (make_field_key level fs.fieldName fs.fieldId)
        with _ | d
      · rw [hd] at hr
        simp at hr
      · rw [hd] at hr
        simp only [Option.some_bind] at hr
        rcases hdr : d.headerRange with _ | ⟨r1, r2⟩
        · rw [hdr] at hr
          simp at hr
        · rw [hdr] at hr
          simp only [Option.map_some', Option.some.injEq, Prod.mk.injEq] at hr
          exact ⟨r1, r2, d, rfl, hdr, hr.1.symm, hr.2.symm⟩

/-- C2: for every file whose trailing 4 bytes are the magic marker (and
whose declared footer length fits before the trailer), the navigator
interprets the 4 bytes before the marker as an unsigned little-endian
32-bit `footer_length`, computes `footer_start = file_size - 8 -
footer_length`, reads exactly `footer_length` bytes starting at
`footer_start`, and decodes them with `base_offset = footer_start`: the
metadata-blob segment spans `[footer_start, footer_start + footer_length]`
absolutely, and every emitted field range is the blob-relative recorded
range shifted by `footer_start`. -/
theorem c2_footer_location (file : List Nat) (dec : V1Dec) (su : Bool)
    (h8 : 8 ≤ file.length)
    (htrail : slice file (file.length - 4) 4 = par1Bytes)
    (hL : (v1_footer_length file : Int) ≤ (file.length : Int) - 8) :
    (∀ b0 b1 b2 b3, slice file (file.length - 8) 4 = [b0, b1, b2, b3] →
      v1_footer_length file =
        b0 % 256 + 256 * (b1 % 256) + 65536 * (b2 % 256) +
          16777216 * (b3 % 256)) ∧
    (v1_metadata_bytes file).length = v1_footer_length file ∧
    v1_metadata_bytes file =
      (file.drop (file.length - 8 - v1_footer_length file)).take
        (v1_footer_length file) ∧
    v1_metadata_offset file =
      (file.length : Int) - 8 - v1_footer_length file ∧
    (∃ segs, analyze_parquet_file file dec su = .ok segs ∧
      ∃ blob ∈ segs, blob.stype = "thrift_metadata_blob" ∧
        blob.rangeLo = v1_metadata_offset file ∧
        blob.rangeHi = v1_metadata_offset file + v1_footer_length file ∧
        (∀ obj det, dec (v1_metadata_bytes file) = .ok (obj, det) →
          blob.fields =
            thrift_to_dict_with_offsets obj det (v1_metadata_offset file) 1 su) ∧
        (∀ f ∈ blob.fields, ∀ a b, f.headerRange = some (a, b) →
          ∃ r1 r2 : Nat, a = (r1 : Int) + v1_metadata_offset file ∧
            b = (r2 : Int) + v1_metadata_offset file)) := by
  have hn8 : ¬file.length < 8 := by omega
  have hmo : ¬v1_metadata_offset file < 0 := by
    unfold v1_metadata_offset; omega
  have htoNat : (v1_metadata_offset file).toNat =
      file.length - 8 - v1_footer_length file := by
    unfold v1_metadata_offset
    omega
  refine ⟨?_, ?_, ?_, rfl, ?_⟩
  · intro b0 b1 b2 b3 hs
    show le32 (slice file (file.length - 8) 4) = _
    rw [hs]
    show b0 % 256 + 256 * (b1 % 256 + 256 * (b2 % 256 + 256 * (b3 % 256 + 256 * 0))) = _
    ring
  · show (slice file (v1_metadata_offset file).toNat (v1_footer_length file)).length = _
    rw [htoNat]
    unfold slice
    rw [List.length_take, List.length_drop]
    have : (v1_footer_length file : Int) ≤ (file.length : Int) - 8 := hL
    omega
  · show slice file (v1_metadata_offset file).toNat (v1_footer_length file) = _
    rw [htoNat]
    rfl
  · -- branch analysis of `analyze_parquet_file`
    have hseg0err : ¬((mkV1Seg 0 ((file.take 4).length : Int) "error"
        (.vstr (bytesHex (file.take 4)))).value = .vstr "PAR1" ∧
        4 < v1_metadata_offset file) := by
      rintro ⟨hv, -⟩
      have hlen := congrArg
        (fun v => match v with | V1Val.vstr s => s.length | _ => 0) hv
      simp only [mkV1Seg] at hlen
      rw [bytesHex_length] at hlen
      have h4 : (file.take 4).length = 4 := by rw [List.length_take]; omega
      rw [h4] at hlen
      exact absurd hlen (by decide)
    rcases hdec : dec (v1_metadata_bytes file) with e | ⟨obj, det⟩
    · -- decode raises: the blob still spans the footer, with no fields
      have hconc : ∀ pre : List V1Seg,
          ({ rangeLo := v1_metadata_offset file,
             rangeHi := v1_metadata_offset file + v1_footer_length file,
             stype := "thrift_metadata_blob", value := .vnone, fields := [],
             decodeError := some ("Thrift deserialization or offset processing failed: " ++ e) } : V1Seg) ∈ pre →
          ∃ blob ∈ v1SortSegments pre, blob.stype = "thrift_metadata_blob" ∧
            blob.rangeLo = v1_metadata_offset file ∧
            blob.rangeHi = v1_metadata_offset file + v1_footer_length file ∧
            (∀ (obj' : V1Obj) (det' : DetailsMap),
              Except.error e = Except.ok (obj', det') →
              blob.fields =
                thrift_to_dict_with_offsets obj' det' (v1_metadata_offset file) 1 su) ∧
            (∀ f ∈ blob.fields, ∀ a b, f.headerRange = some (a, b) →
              ∃ r1 r2 : Nat, a = (r1 : Int) + v1_metadata_offset file ∧
                b = (r2 : Int) + v1_metadata_offset file) := by
        intro pre hmem
        refine ⟨_, ((List.perm_insertionSort _ _).mem_iff).mpr hmem,
          rfl, rfl, rfl, ?_, ?_⟩
        · intro obj' det' hdec2
          exact absurd hdec2 (by simp)
        · intro f hf
          simp at hf
      by_cases hm : file.take 4 = par1Bytes
      case pos =>
        by_cases hdb : 4 < v1_metadata_offset file
        case pos =>
          exact ⟨_, by
            simp only [analyze_parquet_file, if_pos hm, if_neg hn8, if_pos htrail,
              if_neg hmo, hdec]
            rfl, hconc _ (by
              have hc0 : (mkV1Seg 0 4 "magic_number" (V1Val.vstr "PAR1")).value =
                  V1Val.vstr "PAR1" := rfl
              rw [if_pos (And.intro hc0 hdb)]
              simp [insertAt1])⟩
        case neg =>
          exact ⟨_, by
            simp only [analyze_parquet_file, if_pos hm, if_neg hn8, if_pos htrail,
              if_neg hmo, hdec]
            rfl, hconc _ (by rw [if_neg (fun hc => hdb hc.2)]; simp)⟩
      case neg =>
        exact ⟨_, by
          simp only [analyze_parquet_file, if_neg hm, if_neg hn8, if_pos htrail,
            if_neg hmo, hdec]
          rfl, hconc _ (by rw [if_neg hseg0err]; simp)⟩
    · -- decode succeeds: the blob carries the builder's fields
      have hconc : ∀ pre : List V1Seg,
          ({ rangeLo := v1_metadata_offset file,
             rangeHi := v1_metadata_offset file + v1_footer_length file,
             stype := "thrift_metadata_blob", value := .vnone,
             fields := thrift_to_dict_with_offsets obj det
               (v1_metadata_offset file) 1 su,
             decodeError := none } : V1Seg) ∈ pre →
          ∃ blob ∈ v1SortSegments pre, blob.stype = "thrift_metadata_blob" ∧
            blob.rangeLo = v1_metadata_offset file ∧
            blob.rangeHi = v1_metadata_offset file + v1_footer_length file ∧
            (∀ (obj' : V1Obj) (det' : DetailsMap),
              (Except.ok (obj, det) : Except String (V1Obj × DetailsMap)) = Except.ok (obj', det') →
              blob.fields =
                thrift_to_dict_with_offsets obj' det' (v1_metadata_offset file) 1 su) ∧
            (∀ f ∈ blob.fields, ∀ a b, f.headerRange = some (a, b) →
              ∃ r1 r2 : Nat, a = (r1 : Int) + v1_metadata_offset file ∧
                b = (r2 : Int) + v1_metadata_offset file) := by
        intro pre hmem
        refine ⟨_, ((List.perm_insertionSort _ _).mem_iff).mpr hmem,
          rfl, rfl, rfl, ?_, ?_⟩
        · intro obj' det' hdec2
          have h1 := Except.ok.inj hdec2
          injection h1 with h2 h3
          subst h2; subst h3
          rfl
        · intro f hf a b hfr
          obtain ⟨r1, r2, d, _, _, ha, hb⟩ :=
            v1_ranges_absolute obj det (v1_metadata_offset file) 1 su f hf a b hfr
          exact ⟨r1, r2, ha, hb⟩
      by_cases hm : file.take 4 = par1Bytes
      case pos =>
        by_cases hdb : 4 < v1_metadata_offset file
        case pos =>
          exact ⟨_, by
            simp only [analyze_parquet_file, if_pos hm, if_neg hn8, if_pos htrail,
              if_neg hmo, hdec]
            rfl, hconc _ (by
              have hc0 : (mkV1Seg 0 4 "magic_number" (V1Val.vstr "PAR1")).value =
                  V1Val.vstr "PAR1" := rfl
              rw [if_pos (And.intro hc0 hdb)]
              simp [insertAt1])⟩
        case neg =>
          exact ⟨_, by
            simp only [analyze_parquet_file, if_pos hm, if_neg hn8, if_pos htrail,
              if_neg hmo, hdec]
            rfl, hconc _ (by rw [if_neg (fun hc => hdb hc.2)]; simp)⟩
      case neg =>
        exact ⟨_, by
          simp only [analyze_parquet_file, if_neg hm, if_neg hn8, if_pos htrail,
            if_neg hmo, hdec]
          rfl, hconc _ (by rw [if_neg hseg0err]; simp)⟩

/-- Witness for C2 on a concrete 20-byte file with footer length 4 at
offset 8 and one recorded field. -/
theorem c2_witness :
    (v1_metadata_bytes c2File).length = v1_footer_length c2File ∧
    v1_metadata_offset c2File = (20 : Int) - 8 - 4 :=
  ⟨(c2_footer_location c2File c2Dec false (by decide) (by decide)
      (by decide)).2.1,
   (c2_footer_location c2File c2Dec false (by decide) (by decide)
      (by decide)).2.2.2.1⟩

/-- C3 counterexample: at a nested level the v1 builder walks
`thrift_spec` in declaration order, so `alpha` (declared first) is emitted
before `beta` even though the recorder captured `beta` first (header at
blob offset 5, before `alpha`'s header at offset 8): the nested order is
schema-declaration order, not the depth-first capture order. -/
theorem c3_counterexample :
    (thrift_to_dict_with_offsets c3Obj c3Details 0 2 true).map
        (fun f => f.fieldName) = ["alpha", "beta"] ∧
    captureOrder [("alpha", 8), ("beta", 5)] = ["beta", "alpha"] ∧
    lookupDetail c3Details (make_field_key 2 "alpha" 1) =
      some { headerRange := some (8, 9), valueRange := some (9, 11) } ∧
    lookupDetail c3Details (make_field_key 2 "beta" 2) =
      some { headerRange := some (5, 6), valueRange := some (6, 8) } := by
  refine ⟨?_, ?_, ?_, ?_⟩ <;> rfl

/-- C3 (amended): at `nesting_level = 1` the emitted field list is sorted
by the key `(0 if has_offset else 1, start_offset, original_index)` —
fields with a recorded range first, by ascending start, ties broken by the
schema-declaration index — and is a permutation of the captured items; at
any other nesting level the items are left exactly as the `thrift_spec`
walk produced them (schema-declaration order), with no re-sort. -/
theorem c3_field_ordering (obj : V1Obj) (details : DetailsMap) (base : Int)
    (level : Nat) (su : Bool) :
    List.Sorted (fun f g => v1SortLE f g = true)
        (thriftToDictCore obj details base 1 su) ∧
    (thriftToDictCore obj details base 1 su).Perm
        (v1FieldItems obj details base 1 su) ∧
    (level ≠ 1 →
      thriftToDictCore obj details base level su =
        v1FieldItems obj details base level su) := by
  refine ⟨?_, ?_, ?_⟩
  · simpa [thriftToDictCore] using
      List.sorted_insertionSort (fun f g => v1SortLE f g = true)
        (v1FieldItems obj details base 1 su)
  · simpa [thriftToDictCore] using
      List.perm_insertionSort (fun f g => v1SortLE f g = true)
        (v1FieldItems obj details base 1 su)
  · intro h
    simp [thriftToDictCore, h]

/-- Witness for the amended C3 at nesting level 2 on the concrete nested
struct: no re-sort happens. -/
theorem c3_field_ordering_witness :
    thriftToDictCore c3Obj c3Details 0 2 true =
      v1FieldItems c3Obj c3Details 0 2 true :=
  (c3_field_ordering c3Obj c3Details 0 2 true).2.2 (by decide)

/-- C1 counterexample: a fully successful v3 analysis can emit a segment
with `range[0] > range[1]`: when the decoded page header declares
`compressed_page_size = -2`, `read_pages` appends a `page_data` segment of
length `-2`, which survives the final sort and `fill_gaps` into the
returned segment list. -/
theorem c1_counterexample :
    ∃ segs : List SegV3,
      (parse_parquet_file c1File 2 c1FootOracle c1PageOracle noMiscOracle
          noMiscOracle noMiscOracle).run = some (.ok segs) ∧
      ({ offset := 23, length := -2, name := "page_data" } : SegV3) ∈ segs := by
  refine ⟨_, rfl, ?_⟩
  decide

/-- Running the recorder on a single event then the rest. -/
theorem v3Run_cons (e : PEv) (l : List PEv) (st : PState) :
    v3Run (e :: l) st = (v3Step e st).bind (v3Run l) := by
  cases h : v3Step e st <;> simp [v3Run, List.foldlM_cons, h]

/-- Running the recorder on a concatenation of event lists. -/
theorem v3Run_append (l1 l2 : List PEv) (st : PState) :
    v3Run (l1 ++ l2) st = (v3Run l1 st).bind (v3Run l2) := by
  induction l1 generalizing st with
  | nil => rfl
  | cons e t ih =>
    show v3Run (e :: (t ++ l2)) st = _
    rw [v3Run_cons, v3Run_cons]
    cases v3Step e st with
    | none => rfl
    | some s => exact ih s

/-- `elAppend` with an empty right operand. -/
theorem elAppend_lnil : ∀ (l : V3EList), elAppend l .lnil = l
  | .lnil => rfl
  | .lcons e t => by rw [elAppend, elAppend_lnil t]

/-- `elAppend` is associative. -/
theorem elAppend_assoc : ∀ (a b c : V3EList),
    elAppend (elAppend a b) c = elAppend a (elAppend b c)
  | .lnil, _, _ => rfl
  | .lcons e t, b, c => by rw [elAppend, elAppend, elAppend, elAppend_assoc t]

/-- `elSnoc` then `elAppend` is `elAppend` of the cons. -/
theorem elSnoc_append (v : V3EList) (e : V3Entry) (cs : V3EList) :
    elAppend (elSnoc v e) cs = elAppend v (.lcons e cs) := by
  rw [elSnoc, elAppend_assoc]
  rfl

/-- An entry wellformed in a window is wellformed in any wider window. -/
theorem entryWF_widen {lo hi : Nat} {e : V3Entry} (h : EntryWF lo hi e)
    {lo' hi' : Nat} (h1 : lo' ≤ lo) (h2 : hi ≤ hi') : EntryWF lo' hi' e := by
  cases h with
  | prim => exact .prim _ _ _
  | node _ _ a b nm ty sc cs ha hb hc hcs =>
    exact .node _ _ a b nm ty sc cs (le_trans h1 ha) hb (le_trans hc h2) hcs

/-- `entryWF_widen` over an entry list. -/
theorem elistWF_widen {lo hi : Nat} : ∀ {l : V3EList}, EListWF lo hi l →
    ∀ {lo' hi' : Nat}, lo' ≤ lo → hi ≤ hi' → EListWF lo' hi' l
  | .lnil, _, _, _, _, _ => .nil _ _
  | .lcons e t, h, lo', hi', h1, h2 => by
    cases h with
    | cons _ _ _ _ he ht =>
      exact .cons _ _ _ _ (entryWF_widen he h1 h2) (elistWF_widen ht h1 h2)

/-- Running a block of primitive reads never fails, leaves the parent
stack alone, and only appends raw values to the current dict's `value`
(or overwrites its scalar `value`). -/
theorem runPrims (vs : List Int) : ∀ (st : PState),
    ∃ cs sc, v3Run (vs.map .primRead) st =
      some { current := { st.current with
                            value := elAppend st.current.value cs,
                            scalar := sc },
             parents := st.parents } ∧
      ∀ lo hi, EListWF lo hi cs := by
  induction vs with
  | nil =>
    intro st
    refine ⟨.lnil, st.current.scalar, ?_, fun lo hi => .nil lo hi⟩
    rw [elAppend_lnil]
    rfl
  | cons v rest ih =>
    intro st
    rw [List.map_cons, v3Run_cons]
    by_cases hc : isComplex st.current.ty = true
    · obtain ⟨cs, sc, hrun, hwf⟩ := ih
        { st with current :=
            { st.current with value := elSnoc st.current.value (.eprim v) } }
      refine ⟨.lcons (.eprim v) cs, sc, ?_,
        fun lo hi => .cons lo hi _ _ (.prim lo hi v) (hwf lo hi)⟩
      simp only [v3Step]
      rw [if_pos hc, Option.some_bind, ← elSnoc_append]
      exact hrun
    · obtain ⟨cs, sc, hrun, hwf⟩ := ih
        { st with current := { st.current with scalar := some v } }
      refine ⟨cs, sc, ?_, hwf⟩
      simp only [v3Step]
      rw [if_neg hc, Option.some_bind]
      exact hrun

mutual

/-- Driving the recorder through a struct decoded in place (the current
dict is the struct's own dict, as for a `STRUCT`-typed field value or the
root): both positions are recorded over the dict's ranges, the closed
children of its fields are appended to its `value`, and the parent stack
is untouched. -/
theorem runS_inPlace : ∀ (tr : STr) (lo hi : Nat) (st : PState),
    wfS lo tr hi = true → st.current.ty = .tstruct → headNotList st.parents →
    ∃ cs, v3Run (flatS tr) st =
        some { current := { st.current with
                              rangeFrom := some (strPB tr),
                              rangeTo := some (strPE tr),
                              value := elAppend st.current.value cs },
               parents := st.parents } ∧
      EListWF (strPB tr) (strPE tr) cs
  | .smk pB fs pE, lo, hi, st, hwf, hty, hnl => by
    simp only [wfS, Bool.and_eq_true, decide_eq_true_eq] at hwf
    obtain ⟨⟨⟨hloB, hBE⟩, hfs⟩, hEhi⟩ := hwf
    obtain ⟨cs, hrunFs, hcs⟩ := runFs_ok fs pB pE
      { st with current := { st.current with rangeFrom := some pB } } hfs hty
    refine ⟨cs, ?_, hcs⟩
    have h1 : v3Step (.structBegin pB) st =
        some { st with current := { st.current with rangeFrom := some pB } } := by
      simp [v3Step, hty]
    simp only [flatS, List.cons_append]
    rw [v3Run_cons, h1, Option.some_bind, v3Run_append, hrunFs, Option.some_bind]
    rcases hps : st.parents with _ | ⟨p, rest⟩
    · rfl
    · rw [hps] at hnl
      rw [v3Run_cons]
      simp only [v3Step]
      rw [if_neg hnl]
      rfl

/-- Driving the recorder through one struct list element (the current
dict is the `LIST`-typed field's dict): `readStructBegin` opens an
`"element"` child, the element's fields fill it, and `readStructEnd` pops
it back into the list dict's `value`. -/
theorem runS_element : ∀ (tr : STr) (lo hi : Nat) (st : PState),
    wfS lo tr hi = true → st.current.ty = .tlist →
    ∃ e, v3Run (flatS tr) st =
        some { current := { st.current with
                              value := elSnoc st.current.value e },
               parents := st.parents } ∧
      EntryWF lo hi e
  | .smk pB fs pE, lo, hi, st, hwf, hty => by
    simp only [wfS, Bool.and_eq_true, decide_eq_true_eq] at hwf
    obtain ⟨⟨⟨hloB, hBE⟩, hfs⟩, hEhi⟩ := hwf
    obtain ⟨cs, hrunFs, hcs⟩ := runFs_ok fs pB pE
      { current := { name := "element", ty := .tstruct, rangeFrom := some pB,
                     rangeTo := none, scalar := none, value := .lnil },
        parents := st.current :: st.parents } hfs rfl
    refine ⟨.enode "element" .tstruct (some pB) (some pE) none cs, ?_,
      .node lo hi pB pE "element" .tstruct none cs hloB hBE hEhi hcs⟩
    have h1 : v3Step (.structBegin pB) st =
        some { current := { name := "element", ty := .tstruct, rangeFrom := some pB,
                            rangeTo := none, scalar := none, value := .lnil },
               parents := st.current :: st.parents } := by
      simp [v3Step, hty]
    simp only [flatS, List.cons_append]
    rw [v3Run_cons, h1, Option.some_bind, v3Run_append, hrunFs, Option.some_bind]
    rw [v3Run_cons]
    simp only [v3Step]
    rw [if_pos hty]
    rfl

/-- Driving the recorder through a struct's field sequence: the fields'
closed dicts are appended to the current struct dict's `value`,
wellformed in the surrounding window. -/
theorem runFs_ok : ∀ (fs : FTrs) (lo hi : Nat) (st : PState),
    wfFs lo fs hi = true → st.current.ty = .tstruct →
    ∃ cs, v3Run (flatFs fs) st =
        some { current := { st.current with
                              value := elAppend st.current.value cs },
               parents := st.parents } ∧
      EListWF lo hi cs
  | .fnil, lo, hi, st, _, _ => by
    refine ⟨.lnil, ?_, .nil lo hi⟩
    rw [elAppend_lnil]
    rfl
  | .fcons f rest, lo, hi, st, hwf, hty => by
    simp only [wfFs, Bool.and_eq_true] at hwf
    obtain ⟨hf, hrest⟩ := hwf
    obtain ⟨e, hrun1, he⟩ := runF_ok f lo hi st hf hty
    obtain ⟨cs, hrun2, hcs⟩ := runFs_ok rest lo hi
      { current := { st.current with value := elSnoc st.current.value e },
        parents := st.parents } hrest hty
    refine ⟨.lcons e cs, ?_, .cons lo hi _ _ he hcs⟩
    simp only [flatFs]
    rw [v3Run_append, hrun1, Option.some_bind, hrun2, ← elSnoc_append]

/-- Driving the recorder through one field: `readFieldBegin` opens a
child dict at the header position, the value fills it, `readFieldEnd`
stamps the end position and pops it into the enclosing struct dict. -/
theorem runF_ok : ∀ (f : FTr) (lo hi : Nat) (st : PState),
    wfF lo f hi = true → st.current.ty = .tstruct →
    ∃ e, v3Run (flatF f) st =
        some { current := { st.current with
                              value := elSnoc st.current.value e },
               parents := st.parents } ∧
      EntryWF lo hi e
  | .fmk pH ty fid nm v pE, lo, hi, st, hwf, hty => by
    simp only [wfF, Bool.and_eq_true, decide_eq_true_eq] at hwf
    obtain ⟨⟨⟨⟨hloH, hHE⟩, hfid⟩, hv⟩, hEhi⟩ := hwf
    have h1 : v3Step (.fieldBegin pH ty fid nm) st =
        some { current := { name := nm, ty := ty, rangeFrom := some pH,
                            rangeTo := none, scalar := none, value := .lnil },
               parents := st.current :: st.parents } := by
      simp [v3Step, hty, hfid]
    cases v with
    | vprim val =>
      by_cases hc : isComplex ty = true
      · refine ⟨.enode nm ty (some pH) (some pE) none (.lcons (.eprim val) .lnil), ?_,
          .node lo hi pH pE nm ty none _ hloH hHE hEhi
            (.cons pH pE _ _ (.prim pH pE val) (.nil pH pE))⟩
        simp only [flatF, flatV, List.cons_append, List.nil_append]
        rw [v3Run_cons, h1, Option.some_bind, v3Run_cons]
        simp only [v3Step]
        rw [if_pos hc, Option.some_bind]
        rfl
      · refine ⟨.enode nm ty (some pH) (some pE) (some val) .lnil, ?_,
          .node lo hi pH pE nm ty (some val) _ hloH hHE hEhi (.nil pH pE)⟩
        simp only [flatF, flatV, List.cons_append, List.nil_append]
        rw [v3Run_cons, h1, Option.some_bind, v3Run_cons]
        simp only [v3Step]
        rw [if_neg hc, Option.some_bind]
        rfl
    | vnone =>
      refine ⟨.enode nm ty (some pH) (some pE) none .lnil, ?_,
        .node lo hi pH pE nm ty none _ hloH hHE hEhi (.nil pH pE)⟩
      simp only [flatF, flatV, List.cons_append, List.nil_append]
      rw [v3Run_cons, h1, Option.some_bind]
      rfl
    | vlistP vs =>
      obtain ⟨cs, sc, hrunP, hwfP⟩ := runPrims vs
        { current := { name := nm, ty := ty, rangeFrom := some pH,
                       rangeTo := none, scalar := none, value := .lnil },
          parents := st.current :: st.parents }
      refine ⟨.enode nm ty (some pH) (some pE) sc cs, ?_,
        .node lo hi pH pE nm ty sc _ hloH hHE hEhi (hwfP pH pE)⟩
      simp only [flatF, flatV, List.cons_append]
      rw [v3Run_cons, h1, Option.some_bind, v3Run_append, hrunP, Option.some_bind]
      rfl
    | vstruct s =>
      simp only [wfV, Bool.and_eq_true, decide_eq_true_eq] at hv
      obtain ⟨hty2, hs⟩ := hv
      cases s with
      | smk pB2 fs2 pE2 =>
        have hsb := hs
        simp only [wfS, Bool.and_eq_true, decide_eq_true_eq] at hsb
        obtain ⟨⟨⟨hHB2, hB2E2⟩, -⟩, hE2E⟩ := hsb
        obtain ⟨cs, hrunS, hcs⟩ := runS_inPlace (.smk pB2 fs2 pE2) pH pE
          { current := { name := nm, ty := ty, rangeFrom := some pH,
                         rangeTo := none, scalar := none, value := .lnil },
            parents := st.current :: st.parents } hs hty2
          (by simp [headNotList, hty])
        refine ⟨.enode nm ty (some pB2) (some pE) none cs, ?_,
          .node lo hi pB2 pE nm ty none _ (le_trans hloH hHB2)
            (le_trans hB2E2 hE2E) hEhi (elistWF_widen hcs (le_refl pB2) hE2E)⟩
        simp only [flatF, flatV, List.cons_append]
        rw [v3Run_cons, h1, Option.some_bind, v3Run_append, hrunS, Option.some_bind]
        rfl
    | vlistS es =>
      simp only [wfV, Bool.and_eq_true, decide_eq_true_eq] at hv
      obtain ⟨hty3, hes⟩ := hv
      obtain ⟨cs, hrunE, hcs⟩ := runEs_ok es pH pE
        { current := { name := nm, ty := ty, rangeFrom := some pH,
                       rangeTo := none, scalar := none, value := .lnil },
          parents := st.current :: st.parents } hes hty3
      refine ⟨.enode nm ty (some pH) (some pE) none cs, ?_,
        .node lo hi pH pE nm ty none _ hloH hHE hEhi hcs⟩
      simp only [flatF, flatV, List.cons_append]
      rw [v3Run_cons, h1, Option.some_bind, v3Run_append, hrunE, Option.some_bind]
      rfl

/-- Driving the recorder through a `LIST`-typed field's struct elements:
each element's closed `"element"` dict is appended to the list dict's
`value`. -/
theorem runEs_ok : ∀ (es : ETrs) (lo hi : Nat) (st : PState),
    wfEs lo es hi = true → st.current.ty = .tlist →
    ∃ cs, v3Run (flatE es) st =
        some { current := { st.current with
                              value := elAppend st.current.value cs },
               parents := st.parents } ∧
      EListWF lo hi cs
  | .enil, lo, hi, st, _, _ => by
    refine ⟨.lnil, ?_, .nil lo hi⟩
    rw [elAppend_lnil]
    rfl
  | .econs s rest, lo, hi, st, hwf, hty => by
    simp only [wfEs, Bool.and_eq_true] at hwf
    obtain ⟨hs, hrest⟩ := hwf
    obtain ⟨e, hrun1, he⟩ := runS_element s lo hi st hs hty
    obtain ⟨cs, hrun2, hcs⟩ := runEs_ok rest lo hi
      { current := { st.current with value := elSnoc st.current.value e },
        parents := st.parents } hrest hty
    refine ⟨.lcons e cs, ?_, .cons lo hi _ _ he hcs⟩
    simp only [flatE]
    rw [v3Run_append, hrun1, Option.some_bind, hrun2, ← elSnoc_append]

end

mutual

/-- On a range-wellformed offset-info entry, `create_segment_from_offset_info`
succeeds, the produced segment tree satisfies the C1 invariant, and the
segment's own range lies within the (base-shifted) window. -/
theorem cfoi_ok (base : Nat) : ∀ (lo hi : Nat) (e : V3Entry), EntryWF lo hi e →
    ∃ s, create_segment_from_offset_info base e = some s ∧ segOK s = true ∧
      segInWin ((base : Int) + lo) ((base : Int) + hi) s = true
  | lo, hi, .eprim v, _ => ⟨.raw v, rfl, rfl, rfl⟩
  | lo, hi, .enode nm ty rf rt sc cs, h => by
    cases h with
    | node _ _ a b _ _ _ _ h1 h2 h3 hcs =>
      obtain ⟨ks, hks, hok, hwin⟩ := cseglist_ok base a b cs hcs
      have hab : (base : Int) + a + ((b : Int) - (a : Int)) = (base : Int) + b := by
        omega
      by_cases hty : ty = .tstruct ∨ ty = .tlist
      · refine ⟨.seg ((base : Int) + a) ((b : Int) - (a : Int)) nm ks none, ?_, ?_, ?_⟩
        · simp only [create_segment_from_offset_info]
          rw [if_pos hty, hks]
        · simp only [segOK, Bool.and_eq_true, decide_eq_true_eq]
          refine ⟨⟨by omega, ?_⟩, hok⟩
          rw [hab]
          exact hwin
        · simp only [segInWin, Bool.and_eq_true, decide_eq_true_eq]
          rw [hab]
          omega
      · refine ⟨.seg ((base : Int) + a) ((b : Int) - (a : Int)) nm .snil sc, ?_, ?_, ?_⟩
        · simp only [create_segment_from_offset_info]
          rw [if_neg hty]
        · simp only [segOK, segChildrenWithin, segListOK, Bool.and_eq_true,
            decide_eq_true_eq]
          exact ⟨⟨by omega, trivial⟩, trivial⟩
        · simp only [segInWin, Bool.and_eq_true, decide_eq_true_eq]
          rw [hab]
          omega

/-- `cfoi_ok` over an offset-info entry list: `createSegList` succeeds,
every produced child satisfies the C1 invariant, and all children lie
within the (base-shifted) window. -/
theorem cseglist_ok (base : Nat) : ∀ (lo hi : Nat) (l : V3EList), EListWF lo hi l →
    ∃ ks, createSegList base l = some ks ∧ segListOK ks = true ∧
      segChildrenWithin ((base : Int) + lo) ((base : Int) + hi) ks = true
  | lo, hi, .lnil, _ => ⟨.snil, rfl, rfl, rfl⟩
  | lo, hi, .lcons e t, h => by
    cases h with
    | cons _ _ _ _ he ht =>
      obtain ⟨s, hs, hsok, hswin⟩ := cfoi_ok base lo hi e he
      obtain ⟨ks, hks, hok, hwin⟩ := cseglist_ok base lo hi t ht
      refine ⟨.scons s ks, ?_, ?_, ?_⟩
      · simp only [createSegList]
        rw [hs, hks]
      · simp only [segListOK, Bool.and_eq_true]
        exact ⟨hsok, hok⟩
      · cases s with
        | raw v => simpa [segChildrenWithin] using hwin
        | seg o len nm2 kids sc2 =>
          simp only [segInWin, Bool.and_eq_true, decide_eq_true_eq] at hswin
          simp only [segChildrenWithin, Bool.and_eq_true, decide_eq_true_eq]
          exact ⟨hswin, hwin⟩

end

/-- C1 (amended): for every decode trace with the protocol call shape and
monotone transport positions, the v3 recorder runs without error, closes
with an empty parent stack, and `create_segment_from_offset_info` turns
the recorded offset info into a segment tree in which every segment has
`range[0] ≤ range[1]` and every child segment's range lies within its
parent's — whereas the hand-built `page_data` segments of `read_pages`
(of `c1_counterexample`) carry no such guarantee. -/
theorem c1_recorder_segments_wellformed (name : String) (tr : STr)
    (hi base : Nat) (hwf : wfS 0 tr hi = true) :
    ∃ st' s, v3Run (flatS tr) (v3Init name) = some st' ∧ st'.parents = [] ∧
      create_segment_from_offset_info base (closeNode st'.current) = some s ∧
      segOK s = true := by
  obtain ⟨cs, hrun, hcs⟩ := runS_inPlace tr 0 hi (v3Init name) hwf rfl trivial
  cases tr with
  | smk pB fs pE =>
    have hwf2 := hwf
    simp only [wfS, Bool.and_eq_true, decide_eq_true_eq] at hwf2
    obtain ⟨⟨⟨h0B, hBE⟩, -⟩, hEhi⟩ := hwf2
    obtain ⟨s, hcreate, hsok, -⟩ := cfoi_ok base 0 hi
      (.enode name .tstruct (some pB) (some pE) none cs)
      (.node 0 hi pB pE name .tstruct none cs h0B hBE hEhi hcs)
    exact ⟨_, s, hrun, rfl, hcreate, hsok⟩

/-- Witness for the amended C1 on a concrete one-field trace: a struct
spanning positions 1–6 with one i32 field (header at 2, end at 5). -/
theorem c1_recorder_witness :
    ∃ st' s,
      v3Run
        (flatS (.smk 1 (.fcons (.fmk 2 .ti32 3 "num_values" (.vprim 7) 5) .fnil) 6))
        (v3Init "PageHeader") = some st' ∧
      st'.parents = [] ∧
      create_segment_from_offset_info 10 (closeNode st'.current) = some s ∧
      segOK s = true :=
  c1_recorder_segments_wellformed "PageHeader"
    (.smk 1 (.fcons (.fmk 2 .ti32 3 "num_values" (.vprim 7) 5) .fnil) 6) 6 10
    (by decide)

end ParquetLens
